import Mathlib

/-!
# rocky: URI resolution and content fetch (`src/rocky/URI.cpp`)

A shallow embedding of `URI.cpp`: `std::string` is a list of characters, the
index `std::string::npos` is `none`, the effects of a read (cache calls,
filesystem probes, HTTP requests, sleeps) are collected in a trace, and the
function-local `static int rotator` is passed in and out explicitly.
-/

set_option autoImplicit false

namespace Rocky

/-- The type std::string. -/
abbrev Str := List Char

/-! ## std::string primitives -/

/-- Index of the first element satisfying `p`, counted from `i`. -/
def findFrom (p : Char → Bool) : Str → Nat → Option Nat
  | [], _ => none
  | c :: cs, i => if p c then some i else findFrom p cs (i + 1)

/-- The call `s.find_first_of(c, pos)`; `none` is `npos`. -/
def find_first_of (s : Str) (c : Char) (pos : Nat) : Option Nat :=
  findFrom (fun x => x == c) (s.drop pos) pos

/-- The call `s.find_first_of(chars, 0)` with a character set: the first
position holding any character of `chars`. -/
def find_first_of_any (s : Str) (chars : Str) : Option Nat :=
  findFrom (fun x => chars.contains x) s 0

/-- Index of the last element satisfying `p`, counted from `i`. -/
def findLastFrom (p : Char → Bool) : Str → Nat → Option Nat
  | [], _ => none
  | c :: cs, i =>
    match findLastFrom p cs (i + 1) with
    | some j => some j
    | none => if p c then some i else none

/-- The call `s.find_last_of(c)`. -/
def find_last_of (s : Str) (c : Char) : Option Nat :=
  findLastFrom (fun x => x == c) s 0

/-- The call `s.substr(pos)`, for `pos <= s.size()`. -/
def substrFrom (s : Str) (pos : Nat) : Str := s.drop pos

/-- The call `s.substr(pos, n)`, for `pos <= s.size()`. -/
def substr (s : Str) (pos n : Nat) : Str := (s.drop pos).take n

/-- Faults that leave `URI::read` without a defined result. -/
inductive Fault where
  /-- `std::out_of_range` thrown by `substr` with `pos > size()`. -/
  | outOfRange
  /-- Unsigned remainder by zero. -/
  | divByZero
  /-- The signed overflow of `rotator++`. -/
  | intOverflow
  /-- `std::filesystem::filesystem_error` thrown by `exists` when the status of
  the path cannot be determined. -/
  | filesystemError
  deriving DecidableEq, Repr

/-- The call `s.substr(pos, n)` with its range check. -/
def substrChecked (s : Str) (pos n : Nat) : Except Fault Str :=
  if pos ≤ s.length then .ok (substr s pos n) else .error .outOfRange

/-! ## Helpers of `Utils.h` -/

/-- Modelled from the spec: `util::toLower` (Utils.h is not among the
sources); ASCII lower-casing of every character. -/
def toLower (s : Str) : Str := s.map Char.toLower

/-- Whitespace set used by `util::trim`. -/
def isTrimSpace (c : Char) : Bool :=
  c == ' ' || c == '\t' || c == '\x0c' || c == '\x0b' || c == '\n' || c == '\r'

/-- Modelled from the spec: `util::trim` (Utils.h is not among the sources);
removes leading and trailing whitespace. -/
def trim (s : Str) : Str :=
  ((s.dropWhile isTrimSpace).reverse.dropWhile isTrimSpace).reverse

/-- Modelled from the spec: `util::startsWith(ref, pattern, caseSensitive)`
(Utils.h is not among the sources); a prefix test, comparing lower-cased
texts when `caseSensitive` is false. -/
def startsWith (ref pattern : Str) (caseSensitive : Bool) : Bool :=
  if caseSensitive then pattern.isPrefixOf ref
  else (toLower pattern).isPrefixOf (toLower ref)

/-- Scanning loop of `replace_in_place`: `skip` counts the characters of a
match that are still to be consumed. -/
def replaceGo (sub other : Str) : Str → Nat → Str
  | [], _ => []
  | _ :: cs, skip + 1 => replaceGo sub other cs skip
  | c :: cs, 0 =>
    if sub.isPrefixOf (c :: cs) then other ++ replaceGo sub other cs (sub.length - 1)
    else c :: replaceGo sub other cs 0

/-- Modelled from the spec: `util::replace_in_place(s, sub, other)` (Utils.h
is not among the sources); replaces the occurrences of `sub` in `s` by
`other`, scanning left to right and resuming after each replacement. -/
def replace_in_place (s sub other : Str) : Str :=
  if sub.isEmpty then s else replaceGo sub other s 0

/-! ## Anonymous-namespace helpers of `URI.cpp` -/

/-- Transcription of `containsServerAddress`. -/
def containsServerAddress (input : Str) : Bool :=
  let temp := trim (toLower input)
  startsWith temp "http://".toList true || startsWith temp "https://".toList true

/-- Transcription of `inferContentTypeFromFileExtension`. -/
def inferContentTypeFromFileExtension (filename : Str) : Str :=
  match find_last_of filename '.' with
  | some dot => substrFrom filename (dot + 1)
  | none => []

/-- Transcription of `inferContentTypeFromData`. -/
def inferContentTypeFromData (_data : Str) : Str := []

/-! ## Status and result types (`Status.h`, `IOTypes.h`) -/

/-- Modelled from the spec: the error kinds of `Status` (Status.h is not
among the sources), with `NoError` for success. -/
inductive StatusCode where
  | NoError
  | ResourceUnavailable
  | ServiceUnavailable
  | ConfigurationError
  | AssertionFailure
  | GeneralError
  deriving DecidableEq, Repr

/-- Modelled from the spec: `Status` (Status.h is not among the sources); an
error kind with a message, `NoError` meaning success. -/
structure Status where
  code : StatusCode
  message : Str
  deriving DecidableEq, Repr

/-- Modelled from the spec: the constant `StatusOK` (Status.h is not among
the sources), the status of a success. -/
def StatusOK : Status := ⟨.NoError, []⟩

/-- Modelled from the spec: the call `status.ok()` (Status.h is not among the
sources). -/
def Status.ok (s : Status) : Bool := s.code == .NoError

/-- Modelled from the spec: the call `status.failed()` (Status.h is not among
the sources). -/
def Status.failed (s : Status) : Bool := !s.ok

/-- Modelled from the spec: `IOResult<T>` (IOTypes.h is not among the
sources); a status with a value, the value default-constructed when the
result is built from a status alone. -/
structure IOResult (α : Type) where
  status : Status
  value : α
  deriving DecidableEq, Repr

/-- Modelled from the spec: construction of an `IOResult<T>` from a status
(IOTypes.h is not among the sources). -/
def IOResult.ofStatus {α : Type} [Inhabited α] (s : Status) : IOResult α := ⟨s, default⟩

/-- Modelled from the spec: construction of an `IOResult<T>` from a value
(IOTypes.h is not among the sources); the status is `StatusOK`. -/
def IOResult.ofValue {α : Type} (a : α) : IOResult α := ⟨StatusOK, a⟩

/-- Modelled from the spec: the call `IOResult<T>::propagate(r)` (IOTypes.h is
not among the sources); the status of `r`, code and message, with no value. -/
def IOResult.propagate {α β : Type} [Inhabited α] (r : IOResult β) : IOResult α :=
  IOResult.ofStatus r.status

/-- Modelled from the spec: the struct `Content` (IOTypes.h is not among the
sources); a content-type label and a byte buffer, in the order in which
`URI::read` initialises them. -/
structure Content where
  contentType : Str
  data : Str
  deriving DecidableEq, Repr, Inhabited

/-! ## HTTP transport -/

/-- The struct `KeyValuePair`. -/
structure KeyValuePair where
  name : Str
  value : Str
  deriving DecidableEq, Repr

/-- The struct `HTTPRequest`. -/
structure HTTPRequest where
  url : Str
  parameters : List KeyValuePair
  headers : List KeyValuePair
  deriving DecidableEq, Repr

/-- The struct `HTTPResponse`; a default-constructed response leaves `status`
indeterminate, written `0` here (it is never read in that case). -/
structure HTTPResponse where
  status : Int
  data : Str
  headers : List (Str × Str)
  deriving DecidableEq, Repr, Inhabited

/-- Transcription of `split_url`; the three output strings start out empty in
`http_get`, and `none` is the `false` return. -/
def split_url (url : Str) : Option (Str × Str × Str) :=
  match find_first_of_any url "://".toList with
  | none => none
  | some pos0 =>
    match find_first_of url '/' (pos0 + 3) with
    | none => some (url, [], [])
    | some pos =>
      match find_first_of url '?' pos with
      | none => some (substr url 0 pos, substrFrom url pos, [])
      | some query_pos =>
        some (substr url 0 pos, substr url pos (query_pos - pos),
          if query_pos < url.length then substrFrom url (query_pos + 1) else [])

/-- Values of `httplib::Error` seen in a failed `httplib::Result`. -/
inductive HttpError where
  | Connection
  /-- Any other error value, by its number. -/
  | other (n : Nat)
  deriving DecidableEq, Repr

/-- What one `client.Get(path, params, headers)` comes back with. -/
inductive Attempt where
  /-- A response arrived (`res` is truthy). -/
  | response (status : Int) (headers : List (Str × Str)) (body : Str)
  /-- No response (`res` is falsy), with `res.error()`. -/
  | error (e : HttpError)
  /-- The call threw a `std::exception` with this `what()`. -/
  | throws (what : Str)
  deriving DecidableEq, Repr

/-- What `http_get` puts on the wire in one attempt: the client's address,
the path, the query text handed to `parse_query_text`, and the headers. -/
structure Wire where
  url : Str
  proto_host_port : Str
  path : Str
  query_text : Str
  headers : List (Str × Str)
  deriving DecidableEq, Repr

/-- Observable effects of `URI::read`, in program order. -/
inductive Event where
  | cacheGet (key : Str)
  | cachePut (key : Str) (content : Content)
  | fileExists (path : Str)
  | fileRead (path : Str)
  /-- One `client.Get`. -/
  | httpGet (w : Wire)
  /-- The sleep of `1000ms * 2^(retryIndex + jitter)`, jitter in `[0, 1)`. -/
  | sleepBackoff (retryIndex : Nat)
  /-- The sleep of one second after a connection failure. -/
  | sleepFixed
  deriving DecidableEq, Repr

/-- The library and the network around `http_get`. -/
structure Net where
  /-- The macro `ROCKY_VERSION_STRING`. -/
  version : Str
  /-- The function `httplib::status_message`. -/
  status_message : Int → Str
  /-- The function `httplib::to_string` on errors. -/
  error_string : HttpError → Str
  /-- Outcome of the attempt with this number (from 0) of one `http_get`. -/
  get : Wire → Nat → Attempt

/-- Modelled from the spec: the content cache service behind
`io.services.contentCache` (its class is not among the sources); `get`
answers `some` on a hit, and `put` is an effect recorded in the trace. -/
structure ContentCache where
  get : Str → Option Content

/-- Modelled from the spec: the part of `IOOptions` that `URI.cpp` reads
(IOTypes.h is not among the sources). -/
structure IOOptions where
  /-- The `unsigned maxNetworkAttempts`. -/
  maxNetworkAttempts : Nat
  /-- Answer of `io.canceled()` at the poll with this number (from 0). -/
  canceled : Nat → Bool
  /-- The pointer `io.services.contentCache`; `none` is null. -/
  contentCache : Option ContentCache

/-- Result and effects of `http_get`. -/
structure HttpOut where
  result : IOResult HTTPResponse
  trace : List Event

/-- Prepends effects to an outcome. -/
def HttpOut.after (evs : List Event) (o : HttpOut) : HttpOut := ⟨o.result, evs ++ o.trace⟩

/-- The `for(;;)` loop of `http_get`. The loop variable `max_attempts` is
`retries_left + 1`, so `--max_attempts > 0` is `retries_left > 0`; `polls` and
`sent` count the cancellation polls and the requests made so far. -/
def http_get_loop (net : Net) (io : IOOptions) (w : Wire) :
    (retries_left polls sent tooManyRequestsCount : Nat) → HttpOut
  | retries_left, polls, sent, tooManyRequestsCount =>
    if io.canceled polls then ⟨IOResult.ofStatus StatusOK, []⟩
    else
      match net.get w sent with
      | .response status headers body =>
        if status = 404 then
          ⟨IOResult.ofStatus ⟨.ResourceUnavailable, net.status_message status⟩, [.httpGet w]⟩
        else if status = 429 then
          match retries_left with
          | r + 1 =>
            HttpOut.after
              (.httpGet w :: if io.canceled (polls + 1) then [] else [.sleepBackoff tooManyRequestsCount])
              (http_get_loop net io w r (polls + 2) (sent + 1) (tooManyRequestsCount + 1))
          | 0 =>
            ⟨IOResult.ofStatus ⟨.ResourceUnavailable, net.status_message status⟩, [.httpGet w]⟩
        else if status ≠ 200 then
          ⟨IOResult.ofStatus ⟨.GeneralError, net.status_message status⟩, [.httpGet w]⟩
        else
          ⟨IOResult.ofValue ⟨status, body, headers⟩, [.httpGet w]⟩
      | .error e =>
        if e = .Connection then
          match retries_left with
          | r + 1 =>
            HttpOut.after [.httpGet w, .sleepFixed]
              (http_get_loop net io w r (polls + 1) (sent + 1) tooManyRequestsCount)
          | 0 => ⟨IOResult.ofStatus ⟨.ServiceUnavailable, net.error_string e⟩, [.httpGet w]⟩
        else ⟨IOResult.ofStatus ⟨.ServiceUnavailable, net.error_string e⟩, [.httpGet w]⟩
      | .throws what => ⟨IOResult.ofStatus ⟨.GeneralError, what⟩, [.httpGet w]⟩

/-- The call `headers.count(name)` on `httplib::Headers`, whose keys compare
without regard to letter case. -/
def headerCount (headers : List (Str × Str)) (name : Str) : Nat :=
  (headers.filter (fun h => toLower h.1 == toLower name)).length

/-- The `httplib::Headers` built at the top of `http_get`: the request's
headers, and a default `User-Agent` unless one was passed in. -/
def requestHeaders (net : Net) (request : HTTPRequest) : List (Str × Str) :=
  let headers := request.headers.map (fun h => (h.name, h.value))
  if headerCount headers "User-Agent".toList = 0 then
    headers ++ [("User-Agent".toList, "rocky/".toList ++ net.version)]
  else headers

/-- Transcription of `http_get` (the build with `ROCKY_HAS_HTTPLIB`). -/
def http_get (net : Net) (request : HTTPRequest) (io : IOOptions) : HttpOut :=
  let headers := requestHeaders net request
  match split_url request.url with
  | none => ⟨IOResult.ofStatus ⟨.ConfigurationError, []⟩, []⟩
  | some (proto_host_port, path, query_text) =>
    http_get_loop net io ⟨request.url, proto_host_port, path, query_text, headers⟩
      (max 1 io.maxNetworkAttempts - 1) 0 0 0

/-- Number of requests in a trace. -/
def requestCount (t : List Event) : Nat :=
  (t.filter (fun e => match e with | .httpGet _ => true | _ => false)).length

/-! ## The class `URI` -/

/-- The `std::filesystem` operations used by `URI.cpp`, on generic-format
strings; they belong to the standard library and to the state of the disk. -/
structure StdFilesystem where
  /-- The call `path(s).is_absolute()`. -/
  is_absolute : Str → Bool
  /-- The call `path(s).remove_filename()`. -/
  remove_filename : Str → Str
  /-- The path operator `/`. -/
  append : Str → Str → Str
  /-- The call `weakly_canonical(p).generic_string()`. -/
  weakly_canonical : Str → Str
  /-- The call `std::filesystem::exists(s)`, the overload that throws: `none`
  when it throws `filesystem_error` (the status of the path cannot be
  determined, as for a name that is too long or a directory that may not be
  searched), otherwise whether the path exists. -/
  file_exists : Str → Option Bool
  /-- What an `std::ifstream` opened on the path delivers. -/
  file_read : Str → Str

/-- Modelled from the spec: the struct `URIContext` (URI.h is not among the
sources); a referrer and a header list. -/
structure URIContext where
  referrer : Str
  headers : List (Str × Str)
  deriving DecidableEq, Repr

/-- Modelled from the spec: the data members of `URI` (URI.h is not among the
sources), as the copy constructor lists them; an index equal to `npos` is
`none`. -/
structure URI where
  baseURI : Str
  fullURI : Str
  r0 : Option Nat
  r1 : Option Nat
  context : URIContext
  deriving DecidableEq, Repr

/-- The default constructor `URI()`. Modelled from the spec: the member
initialisers of URI.h, which is not among the sources; both rotation indices
start as `npos`, the value `URI::read` tests them against. -/
def URI.empty : URI := ⟨[], [], none, none, ⟨[], []⟩⟩

/-- Modelled from the spec: the accessor `base()` (URI.h is not among the
sources), the base string as stored. -/
def URI.base (u : URI) : Str := u.baseURI

/-- Modelled from the spec: the accessor `full()` (URI.h is not among the
sources), the resolved string. -/
def URI.full (u : URI) : Str := u.fullURI

/-- Transcription of `URI::isRemote`. -/
def URI.isRemote (u : URI) : Bool := containsServerAddress u.fullURI

/-- Transcription of `URI::findRotation`. -/
def URI.findRotation (u : URI) : URI :=
  if u.isRemote then
    match find_first_of u.fullURI '[' 0 with
    | some i0 =>
      match find_first_of u.fullURI ']' i0 with
      | some i1 => { u with r0 := some i0, r1 := some i1 }
      | none => u
    | none => u
  else u

/-- The constructor `URI(location)`. -/
def URI.ofLocation (location : Str) : URI :=
  URI.findRotation { URI.empty with baseURI := location, fullURI := location }

/-- The referrer split made in `URI::set`: the stripped protocol and the rest. -/
def splitReferrer (referrer : Str) : Str × Str :=
  if (URI.ofLocation referrer).isRemote then
    match find_first_of referrer '/' 0 with
    | some pos => (substr referrer 0 (pos + 1), substrFrom referrer (pos + 1))
    | none => ([], referrer)
  else ([], referrer)

/-- Transcription of `URI::set`, acting on the object `u`. -/
def URI.set (fs : StdFilesystem) (u : URI) (location : Str) (context : URIContext) : URI :=
  let baseURI :=
    if startsWith location "file://".toList false then substrFrom location 7 else location
  let absolute_location :=
    fs.is_absolute baseURI ||
    substr (toLower baseURI) 0 7 == "http://".toList ||
    substr (toLower baseURI) 0 8 == "https://".toList
  let fullURI :=
    if !absolute_location && !context.referrer.isEmpty then
      let pr := splitReferrer context.referrer
      let p := fs.weakly_canonical (fs.append (fs.remove_filename pr.2) baseURI)
      if !pr.1.isEmpty then pr.1 ++ p else p
    else baseURI
  URI.findRotation { u with baseURI := baseURI, context := context, fullURI := fullURI }

/-- The constructor `URI(location, context)`. -/
def URI.ofLocationContext (fs : StdFilesystem) (location : Str) (context : URIContext) : URI :=
  URI.set fs URI.empty location context

/-- Transcription of `URI::setReferrer`. -/
def URI.setReferrer (fs : StdFilesystem) (u : URI) (value : Str) : URI :=
  URI.set fs u u.baseURI { u.context with referrer := value }

/-! ## `URI::read` -/

/-- Arithmetic of `size_t`. -/
def sizeMod : Nat := 2 ^ 64

/-- Subtraction of `size_t` values. -/
def sizeSub (a b : Nat) : Nat := (a + sizeMod - b % sizeMod) % sizeMod

/-- Conversion of an `int` to `size_t`. -/
def toSize (n : Int) : Nat := (n % (sizeMod : Int)).toNat

/-- Largest value of `int`. -/
def INT_MAX : Int := 2 ^ 31 - 1

/-- Result, counter and effects of `URI::read`. -/
structure ReadOut where
  result : IOResult Content
  rotator : Int
  trace : List Event
  deriving DecidableEq, Repr

/-- The rotation step of `URI::read`: the URL to request and the new value
of `rotator`. -/
def resolveRotation (u : URI) (rotator : Int) : Except Fault (Str × Int) :=
  let actual_url := u.full
  match u.r0, u.r1 with
  | some r0, some r1 =>
    let k := sizeSub (sizeSub r1 r0) 1
    if k = 0 then .error .divByZero
    else if rotator = INT_MAX then .error .intOverflow
    else
      match substrChecked actual_url r0 ((sizeSub r1 r0 + 1) % sizeMod),
            substrChecked actual_url ((r0 + 1 + toSize rotator % k) % sizeMod) 1 with
      | .ok pattern, .ok replacement =>
        .ok (replace_in_place actual_url pattern replacement, rotator + 1)
      | _, _ => .error .outOfRange
  | _, _ => .ok (actual_url, rotator)

/-- The lookup `r.value.headers.find(key)` in the map filled by
`response.headers[h.first] = h.second`: the last value assigned to the key. -/
def headerFind (headers : List (Str × Str)) (key : Str) : Option Str :=
  (headers.reverse.find? (fun h => h.1 == key)).map (fun h => h.2)

/-- Content-type resolution of the HTTP branch of `URI::read`. -/
def resolveContentType (actual_url : Str) (response : HTTPResponse) : Str :=
  let contentType := (headerFind response.headers "Content-Type".toList).getD []
  let contentType :=
    if contentType.isEmpty then
      let url_path :=
        match find_first_of actual_url '?' 0 with
        | some p => substr actual_url 0 p
        | none => actual_url
      inferContentTypeFromFileExtension url_path
    else contentType
  if contentType.isEmpty then inferContentTypeFromData response.data else contentType

/-- The store into the cache that ends a successful `URI::read`. -/
def cacheStore (io : IOOptions) (key : Str) (content : Content) : List Event :=
  match io.contentCache with
  | some _ => [.cachePut key content]
  | none => []

/-- The HTTP branch of `URI::read` from the call of `http_get` on: `r` is
what `http_get` returned for the request `{ actual_url }`. -/
def readRemote (u : URI) (io : IOOptions) (actual_url : Str) (rotator : Int) (r : HttpOut) :
    ReadOut :=
  if r.result.status.failed then
    ⟨IOResult.propagate r.result, rotator, .fileExists u.full :: r.trace⟩
  else
    let content : Content := ⟨resolveContentType actual_url r.result.value, r.result.value.data⟩
    ⟨IOResult.ofValue content, rotator,
      .fileExists u.full :: r.trace ++ cacheStore io u.full content⟩

/-- What `URI::read` does after the cache lookup missed. The call of
`std::filesystem::exists` stands outside any `try`, so its exception leaves
`URI::read`. -/
def readUncached (fs : StdFilesystem) (net : Net) (u : URI) (io : IOOptions) (rotator : Int) :
    Except Fault ReadOut :=
  match fs.file_exists u.full with
  | none => .error .filesystemError
  | some found =>
    if found then
      let content : Content := ⟨inferContentTypeFromFileExtension u.full, fs.file_read u.full⟩
      .ok ⟨IOResult.ofValue content, rotator,
        [.fileExists u.full, .fileRead u.full] ++ cacheStore io u.full content⟩
    else if containsServerAddress u.full then
      match resolveRotation u rotator with
      | .error f => .error f
      | .ok (actual_url, rotator1) =>
        .ok (readRemote u io actual_url rotator1 (http_get net ⟨actual_url, [], []⟩ io))
    else
      .ok ⟨IOResult.ofStatus
          ⟨.ResourceUnavailable, "Cannot open \"".toList ++ u.full ++ "\"".toList⟩,
        rotator, [.fileExists u.full]⟩

/-- Transcription of `URI::read` for one caller (the gate is not modelled). -/
def URI.read (fs : StdFilesystem) (net : Net) (u : URI) (io : IOOptions) (rotator : Int) :
    Except Fault ReadOut :=
  match io.contentCache with
  | some cache =>
    match cache.get u.full with
    | some cached => .ok ⟨IOResult.ofValue cached, rotator, [.cacheGet u.full]⟩
    | none =>
      (readUncached fs net u io rotator).map
        (fun o => { o with trace := .cacheGet u.full :: o.trace })
  | none => readUncached fs net u io rotator


/-! ## Specification vocabulary -/

/-- An attempt outcome that `http_get` retries: HTTP 429 or a connection
failure. -/
def Attempt.retryable : Attempt → Bool
  | .response status _ _ => status == 429
  | .error e => e == .Connection
  | .throws _ => false

/-- The error kind `http_get` ends with when its last attempt was the
retryable failure `a`. -/
def exhaustedCode : Attempt → StatusCode
  | .response _ _ _ => .ResourceUnavailable
  | _ => .ServiceUnavailable

/-- The state of the `for(;;)` loop of `http_get` at the head of an iteration. -/
structure LoopState where
  retries_left : Nat
  polls : Nat
  sent : Nat
  tooManyRequestsCount : Nat
  deriving DecidableEq, Repr

/-- The loop of `http_get` run from a state. -/
def LoopState.run (net : Net) (io : IOOptions) (w : Wire) (st : LoopState) : HttpOut :=
  http_get_loop net io w st.retries_left st.polls st.sent st.tooManyRequestsCount

/-- The state in which `http_get` enters its loop. -/
def loopStart (io : IOOptions) : LoopState := ⟨max 1 io.maxNetworkAttempts - 1, 0, 0, 0⟩

/-- The iterations the loop of `http_get` goes through from `st0`: each
`continue` of the source leads from one iteration to the next. -/
inductive Visits (net : Net) (io : IOOptions) (w : Wire) (st0 : LoopState) : LoopState → Prop where
  | start : Visits net io w st0 st0
  | tooManyRequests (r polls sent tm : Nat) (headers : List (Str × Str)) (body : Str) :
      Visits net io w st0 ⟨r + 1, polls, sent, tm⟩ →
      io.canceled polls = false →
      net.get w sent = .response 429 headers body →
      Visits net io w st0 ⟨r, polls + 2, sent + 1, tm + 1⟩
  | connection (r polls sent tm : Nat) :
      Visits net io w st0 ⟨r + 1, polls, sent, tm⟩ →
      io.canceled polls = false →
      net.get w sent = .error .Connection →
      Visits net io w st0 ⟨r, polls + 1, sent + 1, tm⟩

/-- The cache lookup that opens `URI::read` when a cache is configured. -/
def cacheProbe (io : IOOptions) (key : Str) : List Event :=
  match io.contentCache with
  | some _ => [.cacheGet key]
  | none => []

/-- An outcome of `URI::read` with the effects `evs` placed in front. -/
def ReadOut.after (evs : List Event) (o : ReadOut) : ReadOut :=
  { o with trace := evs ++ o.trace }

/-- The requests of a trace, as put on the wire. -/
def requestsOf : List Event → List Wire
  | [] => []
  | .httpGet w :: t => w :: requestsOf t
  | _ :: t => requestsOf t

/-- The cache writes of a trace. -/
def putsOf : List Event → List (Str × Content)
  | [] => []
  | .cachePut k c :: t => (k, c) :: putsOf t
  | _ :: t => putsOf t

/-! ## A lexical model of `std::filesystem` on POSIX

Paths in generic format on a disk without symbolic links whose working
directory is the root and holds no entry, so that `weakly_canonical` is
`lexically_normal` once the leading `.` or `..` of a relative path has been
resolved to the root. It serves to evaluate `URI::set` on concrete inputs. -/

/-- Splits a path at its directory separators. -/
def splitSlash : Str → List Str
  | [] => [[]]
  | c :: cs =>
    if c = '/' then [] :: splitSlash cs
    else
      match splitSlash cs with
      | h :: t => (c :: h) :: t
      | [] => [[c]]

/-- One step of `lexically_normal` over the file names of a path; the stack
holds the names kept so far, innermost first. -/
def normalStep (rooted : Bool) (stack : List Str) (name : Str) : List Str :=
  if name = [] ∨ name = ".".toList then stack
  else if name = "..".toList then
    match stack with
    | top :: rest => if top = "..".toList then name :: stack else rest
    | [] => if rooted then [] else [name]
  else name :: stack

/-- The call `path(s).lexically_normal().generic_string()`. -/
def lexically_normal (s : Str) : Str :=
  if s = [] then []
  else
    let rooted := s.head? == some '/'
    let names := splitSlash s
    let stack := names.foldl (normalStep rooted) []
    let last := names.getLast?.getD []
    let body := "/".toList.intercalate stack.reverse
    let trailing :=
      (last = [] ∨ last = ".".toList ∨ last = "..".toList) ∧
        stack ≠ [] ∧ stack.head? ≠ some "..".toList
    let out := (if rooted then ['/'] else []) ++ body ++ (if trailing then ['/'] else [])
    if out = [] then ['.'] else out

/-- The file-name-free part of a path: everything through the last separator. -/
def posixRemoveFilename (s : Str) : Str :=
  match find_last_of s '/' with
  | some i => s.take (i + 1)
  | none => []

/-- The path operator `/` on POSIX. -/
def posixAppend (a b : Str) : Str :=
  if b.head? == some '/' then b
  else if a = [] then b
  else if a.getLast? == some '/' then a ++ b
  else a ++ '/' :: b

/-- The call `weakly_canonical(p).generic_string()`: the leading names of `p`
that exist are made canonical and the others appended, then the whole is
normalised. Of a relative path only a leading `.` or `..` exists, and it is
the root, so that such a path comes out absolute; any other path is
normalised as it stands. -/
def posixWeaklyCanonical (s : Str) : Str :=
  match splitSlash s with
  | first :: _ =>
    if first = ".".toList ∨ first = "..".toList then lexically_normal ('/' :: s)
    else lexically_normal s
  | [] => lexically_normal s

/-- The lexical POSIX model; `present` tells which paths `exists` finds (the
call never throws here) and `contents` what reading them delivers. -/
def posixFilesystem (present : Str → Bool) (contents : Str → Str) : StdFilesystem where
  is_absolute := fun s => s.head? == some '/'
  remove_filename := posixRemoveFilename
  append := posixAppend
  weakly_canonical := posixWeaklyCanonical
  file_exists := fun s => some (present s)
  file_read := contents

/-- A disk with no files. -/
def emptyDisk : StdFilesystem := posixFilesystem (fun _ => false) (fun _ => [])

/-- A disk on which `exists` cannot determine the status of any path. -/
def unreadableDisk : StdFilesystem :=
  { emptyDisk with file_exists := fun _ => none }

/-! ## Resolution as the specification words it -/

/-- A base with a leading `file://`, matched in any letter case, removed. -/
def stripFileScheme (base : Str) : Str :=
  if "file://".toList.isPrefixOf (toLower base) then base.drop 7 else base

/-- Whether a text begins, case-insensitively, with `http://` or `https://`. -/
def hasHttpScheme (b : Str) : Bool :=
  "http://".toList.isPrefixOf (toLower b) || "https://".toList.isPrefixOf (toLower b)

/-- The prefix `URI::set` takes off a remote referrer, through its first `/`,
and the referrer without it. -/
def schemeSplit (referrer : Str) : Str × Str :=
  if containsServerAddress referrer then
    match find_first_of referrer '/' 0 with
    | some pos => (referrer.take (pos + 1), referrer.drop (pos + 1))
    | none => ([], referrer)
  else ([], referrer)

/-- Resolution by the specification's definition, over a way `strip` of
removing the file scheme and a way `split` of splitting the referrer. -/
def resolveBy (strip : Str → Str) (split : Str → Str × Str) (fs : StdFilesystem)
    (base : Str) (context : URIContext) : Str :=
  let b := strip base
  if fs.is_absolute b ∨ hasHttpScheme b = true ∨ context.referrer = [] then b
  else
    let P := (split context.referrer).1
    let R := (split context.referrer).2
    P ++ fs.weakly_canonical (fs.append (fs.remove_filename R) b)

/-- Resolution as `URI::set` performs it. -/
def resolveAmended (fs : StdFilesystem) (base : Str) (context : URIContext) : Str :=
  resolveBy stripFileScheme schemeSplit fs base context

/-! ## Fixtures for concrete runs -/

/-- A network that answers every attempt with `outcome`. -/
def constNet (outcome : Nat → Attempt) : Net :=
  ⟨"0.0.0".toList, fun _ => [], fun _ => [], fun _ i => outcome i⟩

/-- Options with no cache and no cancellation. -/
def plainOptions (maxNetworkAttempts : Nat) : IOOptions :=
  ⟨maxNetworkAttempts, fun _ => false, none⟩

/-- Options with an empty cache and cancellation from the poll `start` on. -/
def cancelOptions (maxNetworkAttempts start : Nat) : IOOptions :=
  ⟨maxNetworkAttempts, fun i => decide (start ≤ i), some ⟨fun _ => none⟩⟩

/-- The reference of the rotation example. -/
def mirrorURI : URI := URI.ofLocation "http://[abc].example.com/x".toList

/-- A network answering every request with HTTP 429. -/
def busyNet : Net := constNet (fun _ => .response 429 [] [])

/-! ## `CachePolicy` (`IOTypes.cpp`) -/

/-- Modelled from the spec: the template `optional<T>` of the policy fields
(its header is not among the sources); a value together with the flag that
tells whether the field is set. -/
structure optional (α : Type) where
  has_value : Bool
  value : α
  deriving DecidableEq, Repr

/-- Modelled from the spec: assignment of a plain value to an `optional<T>`
(its header is not among the sources); the field becomes set and holds the
value. -/
def optional.assign {α : Type} (_self : optional α) (v : α) : optional α := ⟨true, v⟩

/-- Modelled from the spec: `TimeStamp` (its header is not among the sources);
whole seconds since the epoch. -/
abbrev TimeStamp := Int

/-- Modelled from the spec: `DateTime` (its header is not among the sources);
a point in time, built from and read back as a `TimeStamp`. -/
structure DateTime where
  asTimeStamp : TimeStamp
  deriving DecidableEq, Repr

/-- Modelled from the spec: `Duration` (its header is not among the sources),
by the whole number of seconds that the cast `(TimeStamp)maxAge.value()`
yields. -/
structure Duration where
  seconds : TimeStamp
  deriving DecidableEq, Repr

/-- Modelled from the spec: the enum `CachePolicy::Usage` (IOTypes.h is not
among the sources), with the four modes that `usageString` names. -/
inductive Usage where
  | READ_WRITE
  | READ_ONLY
  | CACHE_ONLY
  | NO_CACHE
  deriving DecidableEq, Repr

/-- Modelled from the spec: the data members of `CachePolicy` (IOTypes.h is
not among the sources). -/
structure CachePolicy where
  usage : optional Usage
  maxAge : optional Duration
  minTime : optional DateTime
  deriving DecidableEq, Repr

/-- Transcription of `CachePolicy::mergeAndOverride(const CachePolicy&)`. -/
def CachePolicy.mergeAndOverride (self rhs : CachePolicy) : CachePolicy :=
  let usage := if rhs.usage.has_value then self.usage.assign rhs.usage.value else self.usage
  let minTime :=
    if rhs.minTime.has_value then self.minTime.assign rhs.minTime.value else self.minTime
  let maxAge := if rhs.maxAge.has_value then self.maxAge.assign rhs.maxAge.value else self.maxAge
  { usage := usage, maxAge := maxAge, minTime := minTime }

/-- Transcription of `CachePolicy::mergeAndOverride(const optional<CachePolicy>&)`. -/
def CachePolicy.mergeAndOverrideOptional (self : CachePolicy) (rhs : optional CachePolicy) :
    CachePolicy :=
  if rhs.has_value then self.mergeAndOverride rhs.value else self

/-- Transcription of `CachePolicy::getMinAcceptTime`; `now` is what `DateTime()`
constructs. -/
def CachePolicy.getMinAcceptTime (self : CachePolicy) (now : DateTime) : DateTime :=
  if self.minTime.has_value then self.minTime.value
  else if self.maxAge.has_value then ⟨now.asTimeStamp - self.maxAge.value.seconds⟩
  else ⟨0⟩

/-- Transcription of `CachePolicy::isExpired`. -/
def CachePolicy.isExpired (self : CachePolicy) (now : DateTime) (lastModified : TimeStamp) :
    Bool :=
  decide (lastModified < (self.getMinAcceptTime now).asTimeStamp)

/-- The minimum accept time as the specification words it. -/
def minAcceptTimeSpec (minTime maxAge : Option TimeStamp) (now : TimeStamp) : TimeStamp :=
  match minTime, maxAge with
  | some t, _ => t
  | none, some age => now - age
  | none, none => 0

/-- A policy field read as the specification reads it: its value when set. -/
def optional.toOption {α : Type} (o : optional α) : Option α :=
  if o.has_value then some o.value else none

/-- The policy `{usage: read-write, maxAge: 60}` of the merge example. -/
def readWrite60 : CachePolicy := ⟨⟨true, .READ_WRITE⟩, ⟨true, ⟨60⟩⟩, ⟨false, ⟨0⟩⟩⟩

/-- The override `{usage: no-cache}` of the merge example. -/
def noCacheOverride : CachePolicy := ⟨⟨true, .NO_CACHE⟩, ⟨false, ⟨0⟩⟩, ⟨false, ⟨0⟩⟩⟩

/-! ## JSON serialization of `URI` (`URI.cpp`, `json.h`) -/

/-- A JSON value of the nlohmann library; an object keeps its members in the
order in which they were first assigned. -/
inductive Json where
  | null
  | boolean (b : Bool)
  | number (n : Int)
  | string (s : Str)
  | array (items : List Json)
  | object (members : List (Str × Json))

/-- The call `j.is_string()`. -/
def Json.is_string : Json → Bool
  | .string _ => true
  | _ => false

/-- The call `j.is_array()`. -/
def Json.is_array : Json → Bool
  | .array _ => true
  | _ => false

/-- The call `j.is_object()`. -/
def Json.is_object : Json → Bool
  | .object _ => true
  | _ => false

/-- Assignment to the member `name` in a member list: the value of an
existing member is replaced, a new member is added at the end. -/
def assignMember (name : Str) (v : Json) : List (Str × Json) → List (Str × Json)
  | [] => [(name, v)]
  | (k, x) :: rest => if k = name then (k, v) :: rest else (k, x) :: assignMember name v rest

/-- The assignment `j[name] = v` on an object (and on `null`, which becomes an
object); other values are left alone here, where nlohmann throws. -/
def Json.assign (j : Json) (name : Str) (v : Json) : Json :=
  match j with
  | .object members => .object (assignMember name v members)
  | .null => .object [(name, v)]
  | other => other

/-- Lookup of the member `name` in a member list. -/
def findMember (name : Str) : List (Str × Json) → Option Json
  | [] => none
  | (k, x) :: rest => if k = name then some x else findMember name rest

/-- The call `j.find(name)`, with `none` for `end()`; only objects have
members. -/
def Json.find (j : Json) (name : Str) : Option Json :=
  match j with
  | .object members => findMember name members
  | _ => none

/-- The call `j.contains(name)`. -/
def Json.contains (j : Json) (name : Str) : Bool := (j.find name).isSome

/-- The call `j.push_back(v)` on an array. -/
def Json.push_back (j : Json) (v : Json) : Json :=
  match j with
  | .array items => .array (items ++ [v])
  | .null => .array [v]
  | other => other

/-- Modelled from the spec: the helper `set(j, name, value)` of json.h, which
is not among the sources; it writes the member `name` of the object `j`. -/
def Json.set (j : Json) (name : Str) (v : Json) : Json :=
  if j.is_object then j.assign name v else j

/-- Exceptions of the nlohmann library that `from_json` can raise. -/
inductive JsonFault where
  /-- The exception `invalid_iterator` (207) of `key()` on an iterator that
  does not run over an object. -/
  | invalid_iterator
  /-- The exception `type_error` (302) of a conversion to a string of a value
  that is not one. -/
  | type_error
  deriving DecidableEq, Repr

/-- Modelled from the spec: the helper `get_to(j, name, var)` of json.h, which
is not among the sources, for a string `var`; it reads the member `name` of
the object `j` into `var` when there is one and leaves `var` alone otherwise. -/
def Json.get_to (j : Json) (name : Str) (var : Str) : Except JsonFault Str :=
  match j.find name with
  | some (.string s) => .ok s
  | some _ => .error .type_error
  | none => .ok var

/-- Transcription of `to_json(json&, const URI&)`; the headers are visited in
the order of their list. -/
def to_json (obj : URI) : Json :=
  if obj.context.referrer.isEmpty && obj.context.headers.isEmpty then
    .string obj.base
  else
    let j := (Json.object []).set "href".toList (.string obj.base)
    if obj.context.headers.isEmpty == false then
      let headers := obj.context.headers.foldl
        (fun acc h => acc.push_back (.array [.string h.1, .string h.2])) (Json.array [])
      j.assign "headers".toList headers
    else j

/-- The loop of `from_json` over the value of `headers`, known to be an
array: `i.key()` is called on an array iterator for every element, which
throws, so that only an empty array gets through. -/
def fromJsonHeaders (context : URIContext) : List Json → Except JsonFault URIContext
  | [] => .ok context
  | _ :: _ => .error .invalid_iterator

/-- Transcription of `from_json(const json&, URI&)`; the result is the value
assigned to `obj`, or the exception that escapes. -/
def from_json (fs : StdFilesystem) (j : Json) : Except JsonFault URI :=
  match j with
  | .string s => .ok (URI.ofLocation s)
  | _ =>
    match j.get_to "href".toList [], j.get_to "referrer".toList [] with
    | .ok base, .ok referrer =>
      let context : URIContext := ⟨referrer, []⟩
      let loaded : Except JsonFault URIContext :=
        match j.find "headers".toList with
        | some (.array items) => fromJsonHeaders context items
        | _ => .ok context
      match loaded with
      | .ok context => .ok (URI.ofLocationContext fs base context)
      | .error e => .error e
    | .error e, _ => .error e
    | _, .error e => .error e

/-- The serialized headers as the specification describes them: one
`[name, value]` pair for each header. -/
def headerPairs (headers : List (Str × Str)) : List Json :=
  headers.map (fun h => .array [.string h.1, .string h.2])

/-- The names of the members of a JSON object. -/
def Json.keys : Json → List Str
  | .object members => members.map (fun m => m.1)
  | _ => []

/-- A context with one header and no referrer. -/
def tokenContext : URIContext := ⟨[], [("Authorization".toList, "token".toList)]⟩

/-- A context with a referrer and two headers. -/
def twoHeaderContext : URIContext :=
  ⟨"http://host/dir/file.json".toList,
    [("Accept".toList, "image/png".toList), ("Authorization".toList, "token".toList)]⟩

/-- A network answering every request with HTTP 200, no headers and the
body `data`. -/
def okNet : Net := constNet (fun _ => .response 200 [] "data".toList)

/-- A network answering every request with HTTP 200 and a content-type header
written in lower case. -/
def lowerCaseNet : Net :=
  constNet (fun _ => .response 200 [("content-type".toList, "image/png".toList)] "data".toList)

/-- The invariant of the rotation marker: when both indices are set, the
resolved string is remote and the indices are the positions of its first `[`
and of the first `]` from there on. -/
def URI.rotationInvariant (u : URI) : Bool :=
  match u.r0, u.r1 with
  | some i0, some i1 =>
    u.isRemote && find_first_of u.fullURI '[' 0 == some i0 &&
      find_first_of u.fullURI ']' i0 == some i1
  | _, _ => true

/-- The states of a `URI` object that the constructors, `set` and
`setReferrer` lead to. -/
inductive URI.Reachable (fs : StdFilesystem) : URI → Prop where
  | default : URI.Reachable fs URI.empty
  | ofLocation (location : Str) : URI.Reachable fs (URI.ofLocation location)
  | ofLocationContext (location : Str) (context : URIContext) :
      URI.Reachable fs (URI.ofLocationContext fs location context)
  | set (u : URI) (location : Str) (context : URIContext) :
      URI.Reachable fs u → URI.Reachable fs (URI.set fs u location context)
  | setReferrer (u : URI) (value : Str) :
      URI.Reachable fs u → URI.Reachable fs (URI.setReferrer fs u value)

/-- The retry indices of the back-off sleeps of a trace, in order. -/
def backoffIndices : List Event → List Nat
  | [] => []
  | .sleepBackoff k :: t => k :: backoffIndices t
  | _ :: t => backoffIndices t

/-- Whether `sub` occurs in a string, as `s.find(sub) != npos` tells. -/
def containsSubstring (sub : Str) : Str → Bool
  | [] => sub.isPrefixOf []
  | c :: cs => sub.isPrefixOf (c :: cs) || containsSubstring sub cs

/-- The URL `scheme://authority` followed by `rest`. -/
def urlOf (scheme authority rest : Str) : Str :=
  scheme ++ ':' :: '/' :: '/' :: (authority ++ rest)

/-! ## Lemmas on strings and `size_t` arithmetic -/

theorem findFrom_append (p : Char → Bool) (pre : Str) (x : Char) (rest : Str) (i : Nat)
    (hpre : ∀ c ∈ pre, p c = false) (hx : p x = true) :
    findFrom p (pre ++ x :: rest) i = some (i + pre.length) := by
  induction pre generalizing i with
  | nil => simp [findFrom, hx]
  | cons a as ih =>
    have ha : p a = false := hpre a (List.mem_cons_self _ _)
    have := ih (i + 1) (fun c hc => hpre c (List.mem_cons_of_mem _ hc))
    simp [findFrom, ha, this]
    omega

theorem findFrom_none (p : Char → Bool) (s : Str) (i : Nat)
    (h : ∀ c ∈ s, p c = false) : findFrom p s i = none := by
  induction s generalizing i with
  | nil => rfl
  | cons a as ih =>
    have ha : p a = false := h a (List.mem_cons_self _ _)
    simp [findFrom, ha, ih (i + 1) (fun c hc => h c (List.mem_cons_of_mem _ hc))]

theorem replaceGo_skip (sub other a b : Str) :
    replaceGo sub other (a ++ b) a.length = replaceGo sub other b 0 := by
  induction a with
  | nil => rfl
  | cons x xs ih => simpa [replaceGo] using ih

theorem replaceGo_noHead (h : Char) (t other pre rest : Str)
    (hpre : ∀ c ∈ pre, c ≠ h) :
    replaceGo (h :: t) other (pre ++ rest) 0 = pre ++ replaceGo (h :: t) other rest 0 := by
  induction pre with
  | nil => rfl
  | cons x xs ih =>
    have hx : x ≠ h := hpre x (List.mem_cons_self _ _)
    have hx' : (h == x) = false := by simpa using fun e => hx e.symm
    have := ih (fun c hc => hpre c (List.mem_cons_of_mem _ hc))
    simp [replaceGo, List.isPrefixOf, hx', this]

theorem replaceGo_match (sub other post : Str) (hsub : sub ≠ []) :
    replaceGo sub other (sub ++ post) 0 = other ++ replaceGo sub other post 0 := by
  cases sub with
  | nil => exact absurd rfl hsub
  | cons h t =>
    have hp : (h :: t).isPrefixOf (h :: (t ++ post)) = true := by
      simp [List.isPrefixOf]
    show replaceGo (h :: t) other (h :: (t ++ post)) 0 = _
    rw [replaceGo, if_pos hp]
    simp [replaceGo_skip]

theorem sizeSub_of_le (a b : Nat) (hba : b ≤ a) (ha : a < sizeMod) : sizeSub a b = a - b := by
  unfold sizeSub
  have hb : b % sizeMod = b := Nat.mod_eq_of_lt (by omega)
  rw [hb]
  have : a + sizeMod - b = (a - b) + sizeMod := by omega
  rw [this, Nat.add_mod_right]
  exact Nat.mod_eq_of_lt (by omega)

theorem toSize_of_nonneg (n : Int) (h0 : 0 ≤ n) (h1 : n < INT_MAX) : toSize n = n.toNat := by
  unfold toSize
  have : n % (sizeMod : Int) = n := by
    apply Int.emod_eq_of_lt h0
    have : INT_MAX < (sizeMod : Int) := by decide
    omega
  rw [this]

theorem substr_marker (pre set post : Str) :
    substr (pre ++ '[' :: (set ++ ']' :: post)) pre.length (set.length + 2)
      = '[' :: (set ++ [']']) := by
  simp [substr]
  have : set.length + 1 = (set ++ [']']).length := by simp
  rw [show set ++ ']' :: post = (set ++ [']']) ++ post by simp, this, List.take_left]

theorem substr_setChar (pre set post : Str) (i : Nat) (c : Char) (hc : set[i]? = some c) :
    substr (pre ++ '[' :: (set ++ ']' :: post)) (pre.length + 1 + i) 1 = [c] := by
  have hi : i < set.length := by
    rcases List.getElem?_eq_some_iff.mp hc with ⟨h, _⟩
    exact h
  have h1 : (pre ++ '[' :: (set ++ ']' :: post)).drop (pre.length + 1 + i)
      = set.drop i ++ ']' :: post := by
    rw [show pre ++ '[' :: (set ++ ']' :: post) = (pre ++ ['[']) ++ (set ++ ']' :: post) by simp]
    rw [show pre.length + 1 + i = (pre ++ ['[']).length + i by simp]
    rw [List.drop_append]
    rw [List.drop_append_of_le_length (by omega)]
  unfold substr
  rw [h1]
  have h2 : set.drop i = c :: set.drop (i + 1) := by
    rw [List.drop_eq_getElem_cons hi]
    congr 1
    rcases List.getElem?_eq_some_iff.mp hc with ⟨_, h⟩
    exact h
  rw [h2]
  rfl

theorem replace_in_place_marker (pre set post other : Str) (hpre : ∀ c ∈ pre, c ≠ '[') :
    replace_in_place (pre ++ '[' :: (set ++ ']' :: post)) ('[' :: (set ++ [']'])) other
      = pre ++ other ++ replace_in_place post ('[' :: (set ++ [']'])) other := by
  unfold replace_in_place
  simp only [List.isEmpty_cons, Bool.false_eq_true, if_false]
  rw [replaceGo_noHead '[' (set ++ [']']) other pre _ hpre]
  rw [show '[' :: (set ++ ']' :: post) = ('[' :: (set ++ [']'])) ++ post by simp]
  rw [replaceGo_match _ _ _ (by simp)]
  simp

theorem resolveRotation_marker (u : URI) (pre set post : Str) (n : Int) (c : Char)
    (hfull : u.fullURI = pre ++ '[' :: (set ++ ']' :: post))
    (hr0 : u.r0 = some pre.length) (hr1 : u.r1 = some (pre.length + set.length + 1))
    (hlen : u.fullURI.length < sizeMod)
    (hn1 : n ≠ INT_MAX)
    (hc : set[toSize n % set.length]? = some c) :
    resolveRotation u n
      = .ok (replace_in_place u.fullURI ('[' :: (set ++ [']'])) [c], n + 1) := by
  have hi : toSize n % set.length < set.length := by
    rcases List.getElem?_eq_some_iff.mp hc with ⟨h, _⟩
    exact h
  have hk : 1 ≤ set.length := by omega
  have hlen2 : pre.length + set.length + 2 + post.length < sizeMod := by
    have := hlen
    rw [hfull] at this
    simp at this
    omega
  have e1 : sizeSub (pre.length + set.length + 1) pre.length = set.length + 1 := by
    rw [sizeSub_of_le _ _ (by omega) (by omega)]; omega
  have e2 : sizeSub (set.length + 1) 1 = set.length := by
    rw [sizeSub_of_le _ _ (by omega) (by omega)]; omega
  have e3 : (set.length + 1 + 1) % sizeMod = set.length + 2 := Nat.mod_eq_of_lt (by omega)
  have e4 : (pre.length + 1 + toSize n % set.length) % sizeMod
      = pre.length + 1 + toSize n % set.length := Nat.mod_eq_of_lt (by omega)
  have hne : n ≠ INT_MAX := hn1
  have hk0 : set.length ≠ 0 := by omega
  unfold resolveRotation
  simp only [URI.full, hr0, hr1, e1, e2, e3, e4, hk0, hne, if_false]
  unfold substrChecked
  have l1 : pre.length ≤ u.fullURI.length := by rw [hfull]; simp
  have l2 : pre.length + 1 + toSize n % set.length ≤ u.fullURI.length := by
    rw [hfull]; simp; omega
  rw [if_pos l1, if_pos l2]
  simp only [hfull, substr_marker, substr_setChar pre set post _ c hc]


/-! ## Lemmas on the loop of `http_get` -/

theorem http_get_loop_zero (net : Net) (io : IOOptions) (w : Wire) (polls sent tm : Nat) :
    http_get_loop net io w 0 polls sent tm =
      if io.canceled polls then ⟨IOResult.ofStatus StatusOK, []⟩
      else
        match net.get w sent with
        | .response status headers body =>
          if status = 404 then
            ⟨IOResult.ofStatus ⟨.ResourceUnavailable, net.status_message status⟩, [.httpGet w]⟩
          else if status = 429 then
            ⟨IOResult.ofStatus ⟨.ResourceUnavailable, net.status_message status⟩, [.httpGet w]⟩
          else if status ≠ 200 then
            ⟨IOResult.ofStatus ⟨.GeneralError, net.status_message status⟩, [.httpGet w]⟩
          else
            ⟨IOResult.ofValue ⟨status, body, headers⟩, [.httpGet w]⟩
        | .error e => ⟨IOResult.ofStatus ⟨.ServiceUnavailable, net.error_string e⟩, [.httpGet w]⟩
        | .throws what => ⟨IOResult.ofStatus ⟨.GeneralError, what⟩, [.httpGet w]⟩ := by
  rw [http_get_loop]
  split
  · rfl
  · cases net.get w sent with
    | response status headers body => rfl
    | error e => simp
    | throws what => rfl

theorem http_get_loop_succ (net : Net) (io : IOOptions) (w : Wire) (r polls sent tm : Nat) :
    http_get_loop net io w (r + 1) polls sent tm =
      if io.canceled polls then ⟨IOResult.ofStatus StatusOK, []⟩
      else
        match net.get w sent with
        | .response status headers body =>
          if status = 404 then
            ⟨IOResult.ofStatus ⟨.ResourceUnavailable, net.status_message status⟩, [.httpGet w]⟩
          else if status = 429 then
            HttpOut.after
              (.httpGet w :: if io.canceled (polls + 1) then [] else [.sleepBackoff tm])
              (http_get_loop net io w r (polls + 2) (sent + 1) (tm + 1))
          else if status ≠ 200 then
            ⟨IOResult.ofStatus ⟨.GeneralError, net.status_message status⟩, [.httpGet w]⟩
          else
            ⟨IOResult.ofValue ⟨status, body, headers⟩, [.httpGet w]⟩
        | .error e =>
          if e = .Connection then
            HttpOut.after [.httpGet w, .sleepFixed]
              (http_get_loop net io w r (polls + 1) (sent + 1) tm)
          else ⟨IOResult.ofStatus ⟨.ServiceUnavailable, net.error_string e⟩, [.httpGet w]⟩
        | .throws what => ⟨IOResult.ofStatus ⟨.GeneralError, what⟩, [.httpGet w]⟩ := by
  rw [http_get_loop]

theorem requestCount_after (evs : List Event) (o : HttpOut) :
    requestCount (HttpOut.after evs o).trace = requestCount evs + requestCount o.trace := by
  simp [HttpOut.after, requestCount, List.filter_append]

theorem http_get_loop_requests_le (net : Net) (io : IOOptions) (w : Wire)
    (r polls sent tm : Nat) :
    requestCount (http_get_loop net io w r polls sent tm).trace ≤ r + 1 := by
  induction r generalizing polls sent tm with
  | zero =>
    rw [http_get_loop_zero]
    split
    · simp [requestCount]
    · split <;> (repeat' split) <;> simp [requestCount]
  | succ r ih =>
    rw [http_get_loop_succ]
    split
    · simp [requestCount]
    · split
      · split
        · simp [requestCount]
        · split
          · rw [requestCount_after]
            have := ih (polls + 2) (sent + 1) (tm + 1)
            split <;> simp [requestCount] at * <;> omega
          · split <;> simp [requestCount]
      · split
        · rw [requestCount_after]
          have := ih (polls + 1) (sent + 1) tm
          simp [requestCount] at *
          omega
        · simp [requestCount]
      · simp [requestCount]


theorem result_after (evs : List Event) (o : HttpOut) : (HttpOut.after evs o).result = o.result := rfl

/-- The run from the start state and the run from a visited state end alike. -/
theorem visits_run (net : Net) (io : IOOptions) (w : Wire) (st0 st : LoopState)
    (hv : Visits net io w st0 st) :
    (st0.run net io w).result = (st.run net io w).result ∧
    requestCount (st0.run net io w).trace + st0.sent
      = requestCount (st.run net io w).trace + st.sent := by
  induction hv with
  | start => exact ⟨rfl, rfl⟩
  | tooManyRequests r polls sent tm headers body _ hc hg ih =>
    obtain ⟨h1, h2⟩ := ih
    have e : LoopState.run net io w ⟨r + 1, polls, sent, tm⟩
        = HttpOut.after (.httpGet w :: if io.canceled (polls + 1) then [] else [.sleepBackoff tm])
            (LoopState.run net io w ⟨r, polls + 2, sent + 1, tm + 1⟩) := by
      simp [LoopState.run, http_get_loop_succ, hc, hg]
    rw [e] at h1 h2
    refine ⟨h1, ?_⟩
    rw [h2, requestCount_after]
    have : requestCount (Event.httpGet w :: if io.canceled (polls + 1) = true then [] else [Event.sleepBackoff tm]) = 1 := by
      split <;> simp [requestCount]
    rw [this]
    simp only []
    omega
  | connection r polls sent tm _ hc hg ih =>
    obtain ⟨h1, h2⟩ := ih
    have e : LoopState.run net io w ⟨r + 1, polls, sent, tm⟩
        = HttpOut.after [.httpGet w, .sleepFixed]
            (LoopState.run net io w ⟨r, polls + 1, sent + 1, tm⟩) := by
      simp [LoopState.run, http_get_loop_succ, hc, hg]
    rw [e] at h1 h2
    refine ⟨h1, ?_⟩
    rw [h2, requestCount_after]
    have : requestCount [Event.httpGet w, Event.sleepFixed] = 1 := by
      simp [requestCount]
    rw [this]
    simp only []
    omega

theorem http_get_eq_run (net : Net) (request : HTTPRequest) (io : IOOptions)
    (proto_host_port path query_text : Str)
    (hsplit : split_url request.url = some (proto_host_port, path, query_text)) :
    http_get net request io
      = (loopStart io).run net io
          ⟨request.url, proto_host_port, path, query_text, requestHeaders net request⟩ := by
  simp [http_get, hsplit, LoopState.run, loopStart]


theorem http_get_loop_exhaust (net : Net) (io : IOOptions) (w : Wire)
    (hc : ∀ i, io.canceled i = false)
    (r polls sent tm : Nat) (hr : ∀ i, sent ≤ i → i ≤ sent + r → (net.get w i).retryable = true) :
    requestCount (http_get_loop net io w r polls sent tm).trace = r + 1 ∧
    (http_get_loop net io w r polls sent tm).result.status.code
      = exhaustedCode (net.get w (sent + r)) := by
  induction r generalizing polls sent tm with
  | zero =>
    rw [http_get_loop_zero]
    have h := hr sent (Nat.le_refl _) (by omega)
    simp only [hc, Bool.false_eq_true, if_false, Nat.add_zero]
    cases hg : net.get w sent with
    | response status headers body =>
      rw [hg] at h
      have hs : status = 429 := by simpa [Attempt.retryable] using h
      subst hs
      simp [requestCount, exhaustedCode, IOResult.ofStatus]
    | error e =>
      simp [requestCount, exhaustedCode, IOResult.ofStatus]
    | throws what =>
      rw [hg] at h
      simp [Attempt.retryable] at h
  | succ r ih =>
    rw [http_get_loop_succ]
    have h := hr sent (Nat.le_refl _) (by omega)
    simp only [hc, Bool.false_eq_true, if_false]
    cases hg : net.get w sent with
    | response status headers body =>
      rw [hg] at h
      have hs : status = 429 := by simpa [Attempt.retryable] using h
      subst hs
      obtain ⟨h1, h2⟩ := ih (polls + 2) (sent + 1) (tm + 1)
        (fun i h1 h2 => hr i (by omega) (by omega))
      simp only [show ¬ ((429 : Int) = 404) by decide, if_false, if_true]
      rw [requestCount_after, result_after, h1, h2]
      refine ⟨by simp [requestCount]; omega, ?_⟩
      congr 2
      omega
    | error e =>
      rw [hg] at h
      have he : e = .Connection := by simpa [Attempt.retryable] using h
      subst he
      obtain ⟨h1, h2⟩ := ih (polls + 1) (sent + 1) tm
        (fun i h1 h2 => hr i (by omega) (by omega))
      simp only [if_true]
      rw [requestCount_after, result_after, h1, h2]
      refine ⟨by simp [requestCount]; omega, ?_⟩
      congr 2
      omega
    | throws what =>
      rw [hg] at h
      simp [Attempt.retryable] at h


/-! ## Lemmas on `URI::read` -/

theorem requestsOf_append (a b : List Event) : requestsOf (a ++ b) = requestsOf a ++ requestsOf b := by
  induction a with
  | nil => rfl
  | cons e t ih => cases e <;> simp [requestsOf, ih]

theorem putsOf_append (a b : List Event) : putsOf (a ++ b) = putsOf a ++ putsOf b := by
  induction a with
  | nil => rfl
  | cons e t ih => cases e <;> simp [putsOf, ih]

theorem requestsOf_length (t : List Event) : (requestsOf t).length = requestCount t := by
  induction t with
  | nil => rfl
  | cons e t ih =>
    cases e <;> simp [requestsOf, requestCount, List.filter_cons] at * <;> omega

theorem http_get_loop_trace (net : Net) (io : IOOptions) (w : Wire) (r polls sent tm : Nat) :
    (∀ x ∈ requestsOf (http_get_loop net io w r polls sent tm).trace, x = w) ∧
    putsOf (http_get_loop net io w r polls sent tm).trace = [] := by
  induction r generalizing polls sent tm with
  | zero =>
    rw [http_get_loop_zero]
    split
    · simp [requestsOf, putsOf]
    · split <;> (repeat' split) <;> simp [requestsOf, putsOf]
  | succ r ih =>
    rw [http_get_loop_succ]
    split
    · simp [requestsOf, putsOf]
    · split
      · split
        · simp [requestsOf, putsOf]
        · split
          · obtain ⟨h1, h2⟩ := ih (polls + 2) (sent + 1) (tm + 1)
            simp only [HttpOut.after]
            rw [requestsOf_append, putsOf_append, h2]
            split <;> simp [requestsOf, putsOf] <;> exact h1
          · split <;> simp [requestsOf, putsOf]
      · split
        · obtain ⟨h1, h2⟩ := ih (polls + 1) (sent + 1) tm
          simp only [HttpOut.after]
          rw [requestsOf_append, putsOf_append, h2]
          simp [requestsOf, putsOf]
          exact h1
        · simp [requestsOf, putsOf]
      · simp [requestsOf, putsOf]

theorem http_get_trace (net : Net) (request : HTTPRequest) (io : IOOptions) :
    (∀ w ∈ requestsOf (http_get net request io).trace,
      w.url = request.url ∧
      split_url request.url = some (w.proto_host_port, w.path, w.query_text) ∧
      w.headers = requestHeaders net request) ∧
    putsOf (http_get net request io).trace = [] := by
  unfold http_get
  cases hs : split_url request.url with
  | none => simp [requestsOf, putsOf]
  | some t =>
    obtain ⟨a, b, c⟩ := t
    obtain ⟨h1, h2⟩ := http_get_loop_trace net io
      ⟨request.url, a, b, c, requestHeaders net request⟩ (max 1 io.maxNetworkAttempts - 1) 0 0 0
    refine ⟨?_, h2⟩
    intro w hw
    have := h1 w hw
    subst this
    simp

theorem read_miss (fs : StdFilesystem) (net : Net) (u : URI) (io : IOOptions) (rotator : Int)
    (hmiss : ∀ cache, io.contentCache = some cache → cache.get u.full = none) :
    URI.read fs net u io rotator
      = (readUncached fs net u io rotator).map (ReadOut.after (cacheProbe io u.full)) := by
  unfold URI.read cacheProbe
  cases hc : io.contentCache with
  | none =>
    simp only []
    cases readUncached fs net u io rotator <;> rfl
  | some cache =>
    simp only [hmiss cache hc]
    cases readUncached fs net u io rotator <;> rfl

theorem read_remote_branch (fs : StdFilesystem) (net : Net) (u : URI) (io : IOOptions)
    (rotator : Int)
    (hmiss : ∀ cache, io.contentCache = some cache → cache.get u.full = none)
    (hfile : fs.file_exists u.full = some false) (hrem : u.isRemote = true) :
    URI.read fs net u io rotator
      = (resolveRotation u rotator).map (fun p =>
          ReadOut.after (cacheProbe io u.full)
            (readRemote u io p.1 p.2 (http_get net ⟨p.1, [], []⟩ io))) := by
  rw [read_miss fs net u io rotator hmiss]
  have hrem2 : containsServerAddress u.full = true := hrem
  simp only [readUncached, hfile, hrem2, Bool.false_eq_true, if_false, if_true]
  cases resolveRotation u rotator with
  | error f => rfl
  | ok p => rfl

theorem read_remote (fs : StdFilesystem) (net : Net) (u : URI) (io : IOOptions)
    (rotator rotator1 : Int) (actual_url : Str)
    (hmiss : ∀ cache, io.contentCache = some cache → cache.get u.full = none)
    (hfile : fs.file_exists u.full = some false) (hrem : u.isRemote = true)
    (hrot : resolveRotation u rotator = .ok (actual_url, rotator1)) :
    URI.read fs net u io rotator
      = .ok (ReadOut.after (cacheProbe io u.full)
          (readRemote u io actual_url rotator1 (http_get net ⟨actual_url, [], []⟩ io))) := by
  rw [read_miss fs net u io rotator hmiss]
  have hrem' : containsServerAddress u.full = true := hrem
  simp [readUncached, hfile, hrem', hrot, Except.map]

theorem readRemote_requests (u : URI) (io : IOOptions) (actual_url : Str) (rotator : Int)
    (r : HttpOut) :
    (readRemote u io actual_url rotator r).rotator = rotator ∧
    requestsOf (ReadOut.after (cacheProbe io u.full) (readRemote u io actual_url rotator r)).trace
      = requestsOf r.trace := by
  unfold readRemote ReadOut.after cacheProbe cacheStore
  split <;> cases io.contentCache <;> simp [requestsOf, requestsOf_append]


theorem replace_in_place_absent (h : Char) (t other s : Str) (hs : ∀ c ∈ s, c ≠ h) :
    replace_in_place s (h :: t) other = s := by
  unfold replace_in_place
  simp only [List.isEmpty_cons, Bool.false_eq_true, if_false]
  have := replaceGo_noHead h t other s [] hs
  simpa [replaceGo] using this

/-- The rotation step on a recorded marker `[set]`, and the request it leads to. -/
theorem read_rotation_step (fs : StdFilesystem) (net : Net) (io : IOOptions) (u : URI)
    (pre set post : Str) (n : Int) (c : Char)
    (hmiss : ∀ cache, io.contentCache = some cache → cache.get u.full = none)
    (hfile : fs.file_exists u.full = some false) (hrem : u.isRemote = true)
    (hfull : u.fullURI = pre ++ '[' :: (set ++ ']' :: post)) (hpre : ∀ x ∈ pre, x ≠ '[')
    (hr0 : u.r0 = some pre.length) (hr1 : u.r1 = some (pre.length + set.length + 1))
    (hlen : u.fullURI.length < sizeMod) (hn0 : 0 ≤ n) (hn1 : n < INT_MAX)
    (hc : set[n.toNat % set.length]? = some c) :
    replace_in_place u.fullURI ('[' :: (set ++ [']'])) [c]
        = pre ++ c :: replace_in_place post ('[' :: (set ++ [']'])) [c] ∧
    ∃ out, URI.read fs net u io n = .ok out ∧
      out.rotator = n + 1 ∧
      out = ReadOut.after (cacheProbe io u.full)
        (readRemote u io (pre ++ c :: replace_in_place post ('[' :: (set ++ [']'])) [c]) (n + 1)
          (http_get net ⟨pre ++ c :: replace_in_place post ('[' :: (set ++ [']'])) [c], [], []⟩ io)) ∧
      ∀ w ∈ requestsOf out.trace,
        w.url = pre ++ c :: replace_in_place post ('[' :: (set ++ [']'])) [c] ∧
        split_url w.url = some (w.proto_host_port, w.path, w.query_text) := by
  have hrep : replace_in_place u.fullURI ('[' :: (set ++ [']'])) [c]
      = pre ++ c :: replace_in_place post ('[' :: (set ++ [']'])) [c] := by
    rw [hfull, replace_in_place_marker pre set post [c] hpre]
    simp
  have hc' : set[toSize n % set.length]? = some c := by
    rw [toSize_of_nonneg n hn0 hn1]; exact hc
  have hrot := resolveRotation_marker u pre set post n c hfull hr0 hr1 hlen (by omega) hc'
  rw [hrep] at hrot
  refine ⟨hrep, _, read_remote fs net u io n (n + 1) _ hmiss hfile hrem hrot, ?_, rfl, ?_⟩
  · exact (readRemote_requests u io _ (n + 1) _).1
  · intro w hw
    rw [(readRemote_requests u io _ (n + 1) _).2] at hw
    obtain ⟨h1, h2, _⟩ := (http_get_trace net ⟨_, [], []⟩ io).1 w hw
    exact ⟨h1, by rw [h1]; exact h2⟩


theorem mirror_read (fs : StdFilesystem) (net : Net) (io : IOOptions) (n : Int) (c : Char)
    (hmiss : ∀ cache, io.contentCache = some cache → cache.get mirrorURI.full = none)
    (hfile : fs.file_exists mirrorURI.full = some false)
    (hn0 : 0 ≤ n) (hn1 : n < INT_MAX)
    (hc : "abc".toList[n.toNat % 3]? = some c) :
    ∃ out, URI.read fs net mirrorURI io n = .ok out ∧ out.rotator = n + 1 ∧
      ∀ w ∈ requestsOf out.trace,
        w.url = "http://".toList ++ c :: ".example.com/x".toList ∧
        split_url w.url = some (w.proto_host_port, w.path, w.query_text) := by
  obtain ⟨_, out, h1, h2, _, h4⟩ := read_rotation_step fs net io mirrorURI
    "http://".toList "abc".toList ".example.com/x".toList n c hmiss hfile (by decide) (by rfl)
    (by decide) (by rfl) (by rfl) (by decide) hn0 hn1 hc
  refine ⟨out, h1, h2, ?_⟩
  intro w hw
  have := h4 w hw
  rw [replace_in_place_absent '[' _ _ _ (by decide)] at this
  exact this


/-! ## C1: rotation is round-robin and advances once per read -/

/-- C1. For a remote reference whose recorded rotation marker `[set]` holds
`k >= 1` characters, a read that reaches the HTTP branch with the counter at
`n` (a non-negative `int` below `INT_MAX`) requests, in every attempt, the
resolved string with the marker replaced by the character of `set` at index
`n mod k`, and leaves the counter at `n + 1` whatever the network answers
and however often `http_get` retries. Three successive reads of
`http://[abc].example.com/x` from counter 0 request the hosts `a`, `b`, `c`. -/
theorem URI_read_round_robin :
    (∀ (fs : StdFilesystem) (net : Net) (io : IOOptions) (u : URI)
      (pre set post : Str) (n : Int) (c : Char),
      (∀ cache, io.contentCache = some cache → cache.get u.full = none) →
      fs.file_exists u.full = some false → u.isRemote = true →
      u.fullURI = pre ++ '[' :: (set ++ ']' :: post) → (∀ x ∈ pre, x ≠ '[') →
      u.r0 = some pre.length → u.r1 = some (pre.length + set.length + 1) →
      u.fullURI.length < sizeMod → 0 ≤ n → n < INT_MAX →
      set[n.toNat % set.length]? = some c →
      ∃ out, URI.read fs net u io n = .ok out ∧
        out.rotator = n + 1 ∧
        out = ReadOut.after (cacheProbe io u.full)
          (readRemote u io (replace_in_place u.fullURI ('[' :: (set ++ [']'])) [c]) (n + 1)
            (http_get net ⟨replace_in_place u.fullURI ('[' :: (set ++ [']'])) [c], [], []⟩ io)) ∧
        (∀ w ∈ requestsOf out.trace,
          w.url = replace_in_place u.fullURI ('[' :: (set ++ [']'])) [c]) ∧
        replace_in_place u.fullURI ('[' :: (set ++ [']'])) [c]
          = pre ++ c :: replace_in_place post ('[' :: (set ++ [']'])) [c] ∧
        ((∀ x ∈ post, x ≠ '[') →
          replace_in_place u.fullURI ('[' :: (set ++ [']'])) [c] = pre ++ c :: post)) ∧
    (∀ (fs : StdFilesystem) (net : Net) (io : IOOptions),
      (∀ cache, io.contentCache = some cache → cache.get mirrorURI.full = none) →
      fs.file_exists mirrorURI.full = some false →
      ∃ o1 o2 o3,
        URI.read fs net mirrorURI io 0 = .ok o1 ∧
        URI.read fs net mirrorURI io o1.rotator = .ok o2 ∧
        URI.read fs net mirrorURI io o2.rotator = .ok o3 ∧
        o3.rotator = 3 ∧
        (∀ w ∈ requestsOf o1.trace, w.url = "http://a.example.com/x".toList ∧
          w.proto_host_port = "http://a.example.com".toList) ∧
        (∀ w ∈ requestsOf o2.trace, w.url = "http://b.example.com/x".toList ∧
          w.proto_host_port = "http://b.example.com".toList) ∧
        (∀ w ∈ requestsOf o3.trace, w.url = "http://c.example.com/x".toList ∧
          w.proto_host_port = "http://c.example.com".toList)) := by
  constructor
  · intro fs net io u pre set post n c hmiss hfile hrem hfull hpre hr0 hr1 hlen hn0 hn1 hc
    obtain ⟨hrep, out, h1, h2, h3, h4⟩ := read_rotation_step fs net io u pre set post n c
      hmiss hfile hrem hfull hpre hr0 hr1 hlen hn0 hn1 hc
    refine ⟨out, h1, h2, ?_, ?_, hrep, ?_⟩
    · rw [hrep]
      exact h3
    · intro w hw
      rw [hrep]
      exact (h4 w hw).1
    · intro hpost
      rw [hrep, replace_in_place_absent '[' _ _ post hpost]
  · intro fs net io hmiss hfile
    obtain ⟨o1, r1, e1, w1⟩ := mirror_read fs net io 0 'a' hmiss hfile (by decide) (by decide) (by rfl)
    obtain ⟨o2, r2, e2, w2⟩ := mirror_read fs net io 1 'b' hmiss hfile (by decide) (by decide) (by rfl)
    obtain ⟨o3, r3, e3, w3⟩ := mirror_read fs net io 2 'c' hmiss hfile (by decide) (by decide) (by rfl)
    have e1' : o1.rotator = 1 := by rw [e1]; rfl
    have e2' : o2.rotator = 2 := by rw [e2]; rfl
    have e3' : o3.rotator = 3 := by rw [e3]; rfl
    refine ⟨o1, o2, o3, r1, by rw [e1']; exact r2, by rw [e2']; exact r3, e3', ?_, ?_, ?_⟩
    · intro w hw
      obtain ⟨hu, hs⟩ := w1 w hw
      refine ⟨hu, ?_⟩
      rw [hu] at hs
      have : split_url ("http://".toList ++ 'a' :: ".example.com/x".toList)
          = some ("http://a.example.com".toList, "/x".toList, []) := by rfl
      rw [this] at hs
      simp only [Option.some.injEq, Prod.mk.injEq] at hs
      exact hs.1.symm
    · intro w hw
      obtain ⟨hu, hs⟩ := w2 w hw
      refine ⟨hu, ?_⟩
      rw [hu] at hs
      have : split_url ("http://".toList ++ 'b' :: ".example.com/x".toList)
          = some ("http://b.example.com".toList, "/x".toList, []) := by rfl
      rw [this] at hs
      simp only [Option.some.injEq, Prod.mk.injEq] at hs
      exact hs.1.symm
    · intro w hw
      obtain ⟨hu, hs⟩ := w3 w hw
      refine ⟨hu, ?_⟩
      rw [hu] at hs
      have : split_url ("http://".toList ++ 'c' :: ".example.com/x".toList)
          = some ("http://c.example.com".toList, "/x".toList, []) := by rfl
      rw [this] at hs
      simp only [Option.some.injEq, Prod.mk.injEq] at hs
      exact hs.1.symm

/-- Witness of C1: the second fetch of the example reference, on a disk with
no files and a server that always answers 429, with three attempts allowed. -/
theorem URI_read_round_robin_witness :
    mirrorURI.isRemote = true ∧
    mirrorURI.r0 = some 7 ∧ mirrorURI.r1 = some 11 ∧
    ∃ out, URI.read emptyDisk busyNet mirrorURI (plainOptions 3) 1 = .ok out ∧
      out.rotator = 2 ∧
      (requestsOf out.trace).length = 3 ∧
      ∀ w ∈ requestsOf out.trace, w.url = "http://b.example.com/x".toList := by
  obtain ⟨out, h1, h2, _, h3, h4, h5⟩ := URI_read_round_robin.1 emptyDisk busyNet (plainOptions 3)
    mirrorURI "http://".toList "abc".toList ".example.com/x".toList 1 'b'
    (by intro cache h; cases h) (by rfl) (by decide) (by rfl) (by decide) (by rfl) (by rfl)
    (by decide) (by decide) (by decide) (by rfl)
  refine ⟨by decide, by rfl, by rfl, out, h1, h2, ?_, ?_⟩
  · have hlen : (URI.read emptyDisk busyNet mirrorURI (plainOptions 3) 1).toOption.map
        (fun o => (requestsOf o.trace).length) = some 3 := by rfl
    rw [h1] at hlen
    simpa [Except.toOption] using hlen
  · intro w hw
    rw [h3 w hw, h5 (by decide)]
    rfl


theorem split_url_mem (url a b c : Str) (h : split_url url = some (a, b, c)) :
    ∀ x, (x ∈ a ∨ x ∈ b ∨ x ∈ c) → x ∈ url := by
  unfold split_url at h
  have hd : ∀ (n : Nat) (x : Char), x ∈ url.drop n → x ∈ url :=
    fun n x hx => List.mem_of_mem_drop hx
  have ht : ∀ (n : Nat) (l : Str) (x : Char), x ∈ l.take n → x ∈ l :=
    fun n l x hx => List.mem_of_mem_take hx
  split at h
  · cases h
  · split at h
    · simp only [Option.some.injEq, Prod.mk.injEq] at h
      obtain ⟨rfl, rfl, rfl⟩ := h
      intro x hx
      simpa using hx
    · split at h
      · simp only [Option.some.injEq, Prod.mk.injEq] at h
        obtain ⟨rfl, rfl, rfl⟩ := h
        intro x hx
        rcases hx with hx | hx | hx
        · exact hd _ x (ht _ _ x hx)
        · exact hd _ x hx
        · cases hx
      · simp only [Option.some.injEq, Prod.mk.injEq] at h
        obtain ⟨rfl, rfl, rfl⟩ := h
        intro x hx
        rcases hx with hx | hx | hx
        · exact hd _ x (ht _ _ x hx)
        · exact hd _ x (ht _ _ x hx)
        · split at hx
          · exact hd _ x hx
          · cases hx

/-! ## C2: the bracket markers and the wire -/

/-- C2, refuted as stated. A marker with an empty set makes the modulus zero
(the read has no defined result), and a bracket outside the marker reaches
the transport unchanged. -/
theorem rotation_brackets_counterexample :
    ((URI.ofLocation "http://[].example.com/x".toList).isRemote = true ∧
      (URI.ofLocation "http://[].example.com/x".toList).r0 = some 7 ∧
      (URI.ofLocation "http://[].example.com/x".toList).r1 = some 8 ∧
      URI.read emptyDisk busyNet (URI.ofLocation "http://[].example.com/x".toList)
        (plainOptions 1) 0 = .error .divByZero) ∧
    ((URI.ofLocation "http://[ab].example.com/t[1].png".toList).isRemote = true ∧
      (URI.ofLocation "http://[ab].example.com/t[1].png".toList).r0 = some 7 ∧
      (URI.ofLocation "http://[ab].example.com/t[1].png".toList).r1 = some 10 ∧
      (URI.read emptyDisk busyNet (URI.ofLocation "http://[ab].example.com/t[1].png".toList)
        (plainOptions 1) 0).toOption.map (fun o => (requestsOf o.trace).map Wire.url)
        = some ["http://a.example.com/t[1].png".toList] ∧
      '[' ∈ "http://a.example.com/t[1].png".toList ∧
      ']' ∈ "http://a.example.com/t[1].png".toList) := by
  refine ⟨⟨by decide, by rfl, by rfl, by rfl⟩, ⟨by decide, by rfl, by rfl, by rfl, by decide, by decide⟩⟩

/-- C2, amended. For a remote reference whose recorded marker `[set]` has a
non-empty set, the rotation step of a read that reaches the HTTP branch is
defined (the modulus is the set size, not zero) and every request carries the
resolved string with the marker replaced by a character of the set; when the
marker's brackets are the only brackets of the resolved string, nothing put on
the wire contains `[` or `]`. -/
theorem rotation_removes_marker_brackets (fs : StdFilesystem) (net : Net) (io : IOOptions)
    (u : URI) (pre set post : Str) (n : Int)
    (hmiss : ∀ cache, io.contentCache = some cache → cache.get u.full = none)
    (hfile : fs.file_exists u.full = some false) (hrem : u.isRemote = true)
    (hfull : u.fullURI = pre ++ '[' :: (set ++ ']' :: post)) (hpre : ∀ x ∈ pre, x ≠ '[')
    (hr0 : u.r0 = some pre.length) (hr1 : u.r1 = some (pre.length + set.length + 1))
    (hlen : u.fullURI.length < sizeMod) (hk : 1 ≤ set.length) (hn : n ≠ INT_MAX) :
    sizeSub (sizeSub (pre.length + set.length + 1) pre.length) 1 = set.length ∧
    ∃ c ∈ set, ∃ out,
      resolveRotation u n
        = .ok (pre ++ c :: replace_in_place post ('[' :: (set ++ [']'])) [c], n + 1) ∧
      URI.read fs net u io n = .ok out ∧
      (∀ w ∈ requestsOf out.trace,
        w.url = pre ++ c :: replace_in_place post ('[' :: (set ++ [']'])) [c]) ∧
      ((∀ x ∈ pre ++ set ++ post, x ≠ '[' ∧ x ≠ ']') →
        ∀ w ∈ requestsOf out.trace, ∀ x ∈ w.url ++ w.proto_host_port ++ w.path ++ w.query_text,
          x ≠ '[' ∧ x ≠ ']') := by
  have hlen2 : pre.length + set.length + 2 + post.length < sizeMod := by
    have := hlen
    rw [hfull] at this
    simp at this
    omega
  have hi : toSize n % set.length < set.length := Nat.mod_lt _ (by omega)
  obtain ⟨c, hc⟩ : ∃ c, set[toSize n % set.length]? = some c :=
    ⟨_, List.getElem?_eq_getElem hi⟩
  have hmem : c ∈ set := by
    rcases List.getElem?_eq_some_iff.mp hc with ⟨h, rfl⟩
    exact List.getElem_mem _
  have hrep := replace_in_place_marker pre set post [c] hpre
  have hrot := resolveRotation_marker u pre set post n c hfull hr0 hr1 hlen hn hc
  rw [hfull, hrep] at hrot
  simp only [List.append_assoc, List.singleton_append] at hrot
  refine ⟨?_, c, hmem, ?_⟩
  · rw [sizeSub_of_le (pre.length + set.length + 1) pre.length (by omega) (by omega)]
    rw [sizeSub_of_le _ 1 (by omega) (by omega)]
    omega
  have hread := read_remote fs net u io n (n + 1) _ hmiss hfile hrem hrot
  have hreq := readRemote_requests u io
    (pre ++ c :: replace_in_place post ('[' :: (set ++ [']'])) [c]) (n + 1)
    (http_get net ⟨pre ++ c :: replace_in_place post ('[' :: (set ++ [']'])) [c], [], []⟩ io)
  refine ⟨_, hrot, hread, ?_, ?_⟩
  · intro w hw
    rw [hreq.2] at hw
    exact ((http_get_trace net ⟨_, [], []⟩ io).1 w hw).1
  · intro hclean w hw
    rw [hreq.2] at hw
    obtain ⟨h1, h2, _⟩ := (http_get_trace net ⟨_, [], []⟩ io).1 w hw
    simp only [] at h1 h2
    have hpost : replace_in_place post ('[' :: (set ++ [']'])) [c] = post :=
      replace_in_place_absent '[' _ _ post (fun x hx => (hclean x (by simp [hx])).1)
    rw [hpost] at h1 h2
    have hurl : ∀ x ∈ w.url, x ≠ '[' ∧ x ≠ ']' := by
      intro x hx
      rw [h1] at hx
      simp only [List.mem_append, List.mem_cons] at hx
      rcases hx with hx | hx | hx
      · exact hclean x (by simp [hx])
      · subst hx
        exact hclean _ (by simp [hmem])
      · exact hclean x (by simp [hx])
    intro x hx
    simp only [List.mem_append] at hx
    rcases hx with ((hx | hx) | hx) | hx
    · exact hurl x hx
    · exact hurl x (by rw [h1]; exact split_url_mem _ _ _ _ h2 x (Or.inl hx))
    · exact hurl x (by rw [h1]; exact split_url_mem _ _ _ _ h2 x (Or.inr (Or.inl hx)))
    · exact hurl x (by rw [h1]; exact split_url_mem _ _ _ _ h2 x (Or.inr (Or.inr hx)))

/-- Witness of C2 (amended): the first fetch of the example reference. -/
theorem rotation_removes_marker_brackets_witness :
    mirrorURI.isRemote = true ∧ mirrorURI.r0 = some 7 ∧ mirrorURI.r1 = some 11 ∧
    ∃ out, URI.read emptyDisk busyNet mirrorURI (plainOptions 2) 0 = .ok out ∧
      ∀ w ∈ requestsOf out.trace, ∀ x ∈ w.url ++ w.proto_host_port ++ w.path ++ w.query_text,
        x ≠ '[' ∧ x ≠ ']' := by
  obtain ⟨_, _, _, out, _, h2, _, h4⟩ := rotation_removes_marker_brackets emptyDisk busyNet
    (plainOptions 2) mirrorURI "http://".toList "abc".toList ".example.com/x".toList 0
    (by intro cache h; cases h) (by rfl) (by decide) (by rfl) (by decide) (by rfl) (by rfl)
    (by decide) (by decide) (by decide)
  exact ⟨by decide, by rfl, by rfl, out, h2, h4 (by decide)⟩


/-! ## C3: the number of attempts -/

/-- C3. Whatever the network answers and whenever cancellation comes,
`http_get` issues at most `max(1, maxNetworkAttempts)` requests (and returns,
being total). When cancellation is never signalled and each of these attempts
ends in HTTP 429 or in a connection failure, it issues exactly
`max(1, maxNetworkAttempts)` requests and fails, with `ResourceUnavailable`
if the last failure was a 429 and with `ServiceUnavailable` if it was a
connection failure. -/
theorem http_get_attempts (net : Net) (request : HTTPRequest) (io : IOOptions) :
    requestCount (http_get net request io).trace ≤ max 1 io.maxNetworkAttempts ∧
    ∀ proto_host_port path query_text : Str,
      split_url request.url = some (proto_host_port, path, query_text) →
      (∀ i, io.canceled i = false) →
      (∀ i, i < max 1 io.maxNetworkAttempts →
        (net.get ⟨request.url, proto_host_port, path, query_text,
          requestHeaders net request⟩ i).retryable = true) →
      requestCount (http_get net request io).trace = max 1 io.maxNetworkAttempts ∧
      (http_get net request io).result.status.failed = true ∧
      (http_get net request io).result.status.code
        = exhaustedCode (net.get ⟨request.url, proto_host_port, path, query_text,
            requestHeaders net request⟩ (max 1 io.maxNetworkAttempts - 1)) := by
  constructor
  · unfold http_get
    cases hs : split_url request.url with
    | none => simp [requestCount]
    | some t =>
      obtain ⟨a, b, c⟩ := t
      have := http_get_loop_requests_le net io
        ⟨request.url, a, b, c, requestHeaders net request⟩ (max 1 io.maxNetworkAttempts - 1) 0 0 0
      simp only []
      omega
  · intro a b c hsplit hc hr
    rw [http_get_eq_run net request io a b c hsplit]
    obtain ⟨h1, h2⟩ := http_get_loop_exhaust net io _ hc (max 1 io.maxNetworkAttempts - 1) 0 0 0
      (fun i _ hi => hr i (by omega))
    simp only [LoopState.run, loopStart]
    refine ⟨by rw [h1]; omega, ?_, by rw [h2]; simp⟩
    simp only [Status.failed, Status.ok, h2]
    cases net.get ⟨request.url, a, b, c, requestHeaders net request⟩
      (0 + (max 1 io.maxNetworkAttempts - 1)) <;> rfl

/-- Witness of C3: three attempts allowed and only 429 responses give exactly
three requests and `ResourceUnavailable`. -/
theorem http_get_attempts_witness :
    split_url "http://host/a.png".toList
      = some ("http://host".toList, "/a.png".toList, []) ∧
    requestCount (http_get busyNet ⟨"http://host/a.png".toList, [], []⟩ (plainOptions 3)).trace = 3 ∧
    (http_get busyNet ⟨"http://host/a.png".toList, [], []⟩ (plainOptions 3)).result.status.code
      = .ResourceUnavailable := by
  obtain ⟨h1, _, h3⟩ := (http_get_attempts busyNet ⟨"http://host/a.png".toList, [], []⟩
    (plainOptions 3)).2 "http://host".toList "/a.png".toList [] (by rfl) (fun _ => rfl)
    (fun _ _ => rfl)
  exact ⟨by rfl, h1, h3⟩


/-! ## C4: statuses that end the fetch at once -/

/-- C4. At any iteration the loop of `http_get` reaches, a response with
status 404 makes `http_get` return `ResourceUnavailable`, and a response with
a status other than 200, 404 and 429 makes it return `GeneralError`; the
request of that iteration is the last one, so the number of requests is the
number made before it plus one (one request in all when it is the first
response). -/
theorem http_get_permanent_status (net : Net) (request : HTTPRequest) (io : IOOptions)
    (proto_host_port path query_text : Str) (st : LoopState)
    (status : Int) (headers : List (Str × Str)) (body : Str)
    (hsplit : split_url request.url = some (proto_host_port, path, query_text))
    (hv : Visits net io ⟨request.url, proto_host_port, path, query_text,
      requestHeaders net request⟩ (loopStart io) st)
    (hnc : io.canceled st.polls = false)
    (hg : net.get ⟨request.url, proto_host_port, path, query_text,
      requestHeaders net request⟩ st.sent = .response status headers body)
    (h200 : status ≠ 200) (h429 : status ≠ 429) :
    (http_get net request io).result
      = IOResult.ofStatus
          ⟨if status = 404 then .ResourceUnavailable else .GeneralError,
            net.status_message status⟩ ∧
    requestCount (http_get net request io).trace = st.sent + 1 := by
  rw [http_get_eq_run net request io _ _ _ hsplit]
  obtain ⟨h1, h2⟩ := visits_run net io _ _ st hv
  have hrun : st.run net io ⟨request.url, proto_host_port, path, query_text,
      requestHeaders net request⟩
      = ⟨IOResult.ofStatus
          ⟨if status = 404 then .ResourceUnavailable else .GeneralError,
            net.status_message status⟩,
          [.httpGet ⟨request.url, proto_host_port, path, query_text,
            requestHeaders net request⟩]⟩ := by
    unfold LoopState.run
    cases hr : st.retries_left with
    | zero =>
      rw [http_get_loop_zero]
      simp only [hnc, hg, Bool.false_eq_true, if_false]
      by_cases h404 : status = 404 <;> simp [h404, h429, h200]
    | succ r =>
      rw [http_get_loop_succ]
      simp only [hnc, hg, Bool.false_eq_true, if_false]
      by_cases h404 : status = 404 <;> simp [h404, h429, h200]
  rw [h1, hrun]
  refine ⟨rfl, ?_⟩
  rw [hrun] at h2
  have h0 : (loopStart io).sent = 0 := rfl
  rw [h0] at h2
  have hone : requestCount [Event.httpGet ⟨request.url, proto_host_port, path, query_text,
      requestHeaders net request⟩] = 1 := rfl
  simp only [hone] at h2 ⊢
  omega

/-- Witness of C4: a 404 on the first response, with four attempts allowed,
gives `ResourceUnavailable` after exactly one request. -/
theorem http_get_permanent_status_witness :
    (http_get (constNet (fun _ => .response 404 [] [])) ⟨"http://host/missing".toList, [], []⟩
        (plainOptions 4)).result.status.code = .ResourceUnavailable ∧
    requestCount (http_get (constNet (fun _ => .response 404 [] []))
        ⟨"http://host/missing".toList, [], []⟩ (plainOptions 4)).trace = 1 := by
  obtain ⟨h1, h2⟩ := http_get_permanent_status (constNet (fun _ => .response 404 [] []))
    ⟨"http://host/missing".toList, [], []⟩ (plainOptions 4)
    "http://host".toList "/missing".toList [] (loopStart (plainOptions 4)) 404 [] []
    (by rfl) Visits.start (by rfl) (by rfl) (by decide) (by decide)
  exact ⟨by rw [h1]; rfl, h2⟩


/-! ## C5: cancellation -/

/-- C5. If cancellation is signalled at the head of an iteration the loop of
`http_get` reaches (the first attempt or a retry), no request is issued in it
and `http_get` returns `StatusOK` with an empty body; a `URI::read` whose
request this is then returns a successful result with empty content data. -/
theorem http_get_cancelled (net : Net) (request : HTTPRequest) (io : IOOptions)
    (proto_host_port path query_text : Str) (st : LoopState)
    (hsplit : split_url request.url = some (proto_host_port, path, query_text))
    (hv : Visits net io ⟨request.url, proto_host_port, path, query_text,
      requestHeaders net request⟩ (loopStart io) st)
    (hcan : io.canceled st.polls = true) :
    (http_get net request io).result.status = StatusOK ∧
    (http_get net request io).result.status.ok = true ∧
    (http_get net request io).result.value.data = [] ∧
    requestCount (http_get net request io).trace = st.sent ∧
    ∀ (fs : StdFilesystem) (u : URI) (rotator rotator1 : Int),
      request = ⟨request.url, [], []⟩ →
      (∀ cache, io.contentCache = some cache → cache.get u.full = none) →
      fs.file_exists u.full = some false → u.isRemote = true →
      resolveRotation u rotator = .ok (request.url, rotator1) →
      ∃ out, URI.read fs net u io rotator = .ok out ∧
        out.result.status.ok = true ∧ out.result.value.data = [] ∧
        requestCount out.trace = st.sent := by
  have hrun : st.run net io ⟨request.url, proto_host_port, path, query_text,
      requestHeaders net request⟩ = ⟨IOResult.ofStatus StatusOK, []⟩ := by
    unfold LoopState.run
    cases hr : st.retries_left with
    | zero => rw [http_get_loop_zero]; simp [hcan]
    | succ r => rw [http_get_loop_succ]; simp [hcan]
  obtain ⟨h1, h2⟩ := visits_run net io _ _ st hv
  rw [hrun] at h1 h2
  have h0 : (loopStart io).sent = 0 := rfl
  have hres : (http_get net request io).result = IOResult.ofStatus StatusOK := by
    rw [http_get_eq_run net request io _ _ _ hsplit, h1]
  have hcnt : requestCount (http_get net request io).trace = st.sent := by
    rw [http_get_eq_run net request io _ _ _ hsplit]
    rw [h0] at h2
    have hz : requestCount ([] : List Event) = 0 := rfl
    simp only [hz] at h2
    omega
  refine ⟨by rw [hres]; rfl, by rw [hres]; rfl, by rw [hres]; rfl, hcnt, ?_⟩
  intro fs u rotator rotator1 hreq hmiss hfile hrem hrot
  have hread := read_remote fs net u io rotator rotator1 request.url hmiss hfile hrem hrot
  rw [← hreq] at hread
  refine ⟨_, hread, ?_, ?_, ?_⟩
  · simp [ReadOut.after, readRemote, hres, IOResult.ofStatus, StatusOK, Status.failed,
      Status.ok, IOResult.ofValue]
  · simp only [ReadOut.after, readRemote, hres, IOResult.ofStatus, StatusOK, Status.failed,
      Status.ok, IOResult.ofValue]
    rfl
  · rw [← requestsOf_length, (readRemote_requests u io request.url rotator1 _).2,
      requestsOf_length, hcnt]

/-- Witness of C5: cancellation seen at the second iteration, after one 429. -/
theorem http_get_cancelled_witness :
    (http_get busyNet ⟨"http://host/a.png".toList, [], []⟩ (cancelOptions 3 1)).result.status
      = StatusOK ∧
    (http_get busyNet ⟨"http://host/a.png".toList, [], []⟩ (cancelOptions 3 1)).result.value.data
      = [] ∧
    requestCount (http_get busyNet ⟨"http://host/a.png".toList, [], []⟩ (cancelOptions 3 1)).trace
      = 1 ∧
    ∃ out, URI.read emptyDisk busyNet (URI.ofLocation "http://host/a.png".toList)
        (cancelOptions 3 1) 0 = .ok out ∧
      out.result.status.ok = true ∧ out.result.value.data = [] := by
  obtain ⟨h1, _, h3, h4, h5⟩ := http_get_cancelled busyNet ⟨"http://host/a.png".toList, [], []⟩
    (cancelOptions 3 1) "http://host".toList "/a.png".toList [] ⟨1, 2, 1, 1⟩ (by rfl)
    (Visits.tooManyRequests 1 0 0 0 [] [] Visits.start (by rfl) (by rfl)) (by rfl)
  obtain ⟨out, e1, e2, e3, _⟩ := h5 emptyDisk (URI.ofLocation "http://host/a.png".toList) 0 0
    (by rfl) (by intro cache h; cases h; rfl) (by rfl) (by decide) (by rfl)
  exact ⟨h1, h3, h4, out, e1, e2, e3⟩


/-! ## C6: when the cache is written -/

/-- With a cache configured, a read that returns writes the cache exactly
when it missed and ends with an OK status, and then stores the returned
content under the resolved string. -/
theorem read_puts (fs : StdFilesystem) (net : Net) (u : URI) (io : IOOptions) (rotator : Int)
    (cache : ContentCache) (out : ReadOut)
    (hcache : io.contentCache = some cache)
    (hread : URI.read fs net u io rotator = .ok out) :
    putsOf out.trace
      = if (cache.get u.full).isSome then []
        else if out.result.status.ok then [(u.full, out.result.value)] else [] := by
  cases hget : cache.get u.full with
  | some cached =>
    have h := hread
    unfold URI.read at h
    simp only [hcache, hget, Except.ok.injEq] at h
    subst h
    rfl
  | none =>
    have hmiss : ∀ c, io.contentCache = some c → c.get u.full = none := by
      intro c hc
      rw [hcache] at hc
      cases hc
      exact hget
    have h := hread
    rw [read_miss fs net u io rotator hmiss] at h
    have hprobe : cacheProbe io u.full = [.cacheGet u.full] := by simp [cacheProbe, hcache]
    have hstore : ∀ c, cacheStore io u.full c = [.cachePut u.full c] := by
      intro c; simp [cacheStore, hcache]
    simp only [Option.isSome_none, Bool.false_eq_true, if_false]
    by_cases hfile : fs.file_exists u.full = some true
    · simp only [readUncached, hfile, if_true, Except.map, Except.ok.injEq] at h
      subst h
      simp [ReadOut.after, hprobe, hstore, putsOf, IOResult.ofValue, StatusOK, Status.ok]
    · have hfile2 : fs.file_exists u.full = some false := by
        cases hx : fs.file_exists u.full with
        | none => simp [readUncached, hx, Except.map] at h
        | some found =>
          cases found with
          | true => exact absurd hx hfile
          | false => rfl
      by_cases hrem : containsServerAddress u.full = true
      · simp only [readUncached, hfile2, hrem, Bool.false_eq_true, if_false, if_true] at h
        cases hrot : resolveRotation u rotator with
        | error f => rw [hrot] at h; cases h
        | ok p =>
          rw [hrot] at h
          obtain ⟨actual_url, rotator1⟩ := p
          simp only [Except.map, Except.ok.injEq] at h
          subst h
          have hp := (http_get_trace net ⟨actual_url, [], []⟩ io).2
          by_cases hf : (http_get net ⟨actual_url, [], []⟩ io).result.status.failed = true
          · have hok : (http_get net ⟨actual_url, [], []⟩ io).result.status.ok = false := by
              simpa [Status.failed] using hf
            simp [ReadOut.after, readRemote, hf, hprobe, putsOf, hp, IOResult.propagate,
              IOResult.ofStatus, hok]
          · simp [ReadOut.after, readRemote, hf, hprobe, hstore, putsOf, putsOf_append, hp,
              IOResult.ofValue, StatusOK, Status.ok]
      · have hrem2 : containsServerAddress u.full = false := by simpa using hrem
        simp only [readUncached, hfile2, hrem2, Bool.false_eq_true, if_false, Except.map,
          Except.ok.injEq] at h
        subst h
        simp [ReadOut.after, hprobe, putsOf, IOResult.ofStatus, Status.ok]

/-- C6, evaluated at the failing input. A read of a remote reference with an
empty cache configured and cancellation signalled at the first poll issues no
request, succeeds, and stores an empty content under the resolved string. -/
theorem read_cancelled_writes_cache :
    (cancelOptions 3 0).canceled 0 = true ∧
    URI.read emptyDisk busyNet (URI.ofLocation "http://host/a.png".toList) (cancelOptions 3 0) 0
      = .ok ⟨⟨StatusOK, ⟨"png".toList, []⟩⟩, 0,
          [.cacheGet "http://host/a.png".toList,
            .fileExists "http://host/a.png".toList,
            .cachePut "http://host/a.png".toList ⟨"png".toList, []⟩]⟩ ∧
    putsOf [Event.cacheGet "http://host/a.png".toList,
        .fileExists "http://host/a.png".toList,
        .cachePut "http://host/a.png".toList ⟨"png".toList, []⟩]
      = [("http://host/a.png".toList, ⟨"png".toList, []⟩)] := by
  refine ⟨by rfl, by rfl, by rfl⟩

/-! ## C7: a cache hit short-circuits the read -/

/-- C7. With a cache configured whose `get` succeeds on the resolved string,
`URI::read` returns that content with an OK status; its only effect is the
cache lookup (no filesystem probe, no request, no cache write) and the
rotation counter is unchanged. -/
theorem read_cache_hit (fs : StdFilesystem) (net : Net) (u : URI) (io : IOOptions)
    (rotator : Int) (cache : ContentCache) (cached : Content)
    (hcache : io.contentCache = some cache) (hget : cache.get u.full = some cached) :
    URI.read fs net u io rotator = .ok ⟨⟨StatusOK, cached⟩, rotator, [.cacheGet u.full]⟩ := by
  unfold URI.read
  simp only [hcache, hget]
  rfl

/-- Witness of C7: a cache holding the key, over a disk that also has the
file and a counter at 5. -/
theorem read_cache_hit_witness :
    URI.read (posixFilesystem (fun _ => true) (fun _ => "disk".toList)) busyNet
        (URI.ofLocation "http://host/a.png".toList)
        ⟨3, fun _ => false, some ⟨fun _ => some ⟨"png".toList, "cached".toList⟩⟩⟩ 5
      = .ok ⟨⟨StatusOK, ⟨"png".toList, "cached".toList⟩⟩, 5,
          [.cacheGet "http://host/a.png".toList]⟩ :=
  read_cache_hit (posixFilesystem (fun _ => true) (fun _ => "disk".toList)) busyNet
    (URI.ofLocation "http://host/a.png".toList)
    ⟨3, fun _ => false, some ⟨fun _ => some ⟨"png".toList, "cached".toList⟩⟩⟩ 5
    ⟨fun _ => some ⟨"png".toList, "cached".toList⟩⟩ ⟨"png".toList, "cached".toList⟩ rfl rfl


theorem findLastFrom_none (p : Char → Bool) (s : Str) (i : Nat)
    (h : ∀ c ∈ s, p c = false) : findLastFrom p s i = none := by
  induction s generalizing i with
  | nil => rfl
  | cons a as ih =>
    have ha : p a = false := h a (List.mem_cons_self _ _)
    simp [findLastFrom, ha, ih (i + 1) (fun c hc => h c (List.mem_cons_of_mem _ hc))]

theorem inferContentType_noDot (s : Str) (h : ∀ c ∈ s, c ≠ '.') :
    inferContentTypeFromFileExtension s = [] := by
  unfold inferContentTypeFromFileExtension find_last_of
  rw [findLastFrom_none _ s 0 (by simpa using h)]

theorem findRotation_fields (u : URI) :
    u.findRotation.fullURI = u.fullURI ∧ u.findRotation.baseURI = u.baseURI ∧
    u.findRotation.context = u.context := by
  unfold URI.findRotation
  split
  · split
    · split <;> exact ⟨rfl, rfl, rfl⟩
    · exact ⟨rfl, rfl, rfl⟩
  · exact ⟨rfl, rfl, rfl⟩

theorem findRotation_isRemote (u : URI) : u.findRotation.isRemote = u.isRemote := by
  unfold URI.isRemote
  rw [(findRotation_fields u).1]

theorem splitReferrer_eq (referrer : Str) : splitReferrer referrer = schemeSplit referrer := by
  unfold splitReferrer schemeSplit URI.ofLocation
  rw [findRotation_isRemote]
  rfl

theorem substr_beq_isPrefixOf (p s : Str) :
    (substr s 0 p.length == p) = p.isPrefixOf s := by
  induction p generalizing s with
  | nil => simp [substr]
  | cons x xs ih =>
    cases s with
    | nil => simp [substr, List.isPrefixOf]
    | cons y ys =>
      have := ih ys
      simp only [substr, List.drop_zero, List.length_cons, List.take_succ_cons,
        List.isPrefixOf] at this ⊢
      rw [← this]
      by_cases hxy : x = y
      · subst hxy
        simp
      · have e1 : (x == y) = false := by simpa using hxy
        have e2 : (y == x) = false := by simpa using fun e : y = x => hxy e.symm
        simp [e1, e2]

theorem set_eq (fs : StdFilesystem) (u : URI) (location : Str) (context : URIContext) :
    URI.set fs u location context
      = URI.findRotation
          ⟨stripFileScheme location, resolveAmended fs location context, u.r0, u.r1, context⟩ := by
  have hstrip : (if startsWith location "file://".toList false then substrFrom location 7
      else location) = stripFileScheme location := by
    unfold startsWith stripFileScheme substrFrom
    have : toLower "file://".toList = "file://".toList := by decide
    simp only [this, Bool.false_eq_true, if_false]
  have e7 := substr_beq_isPrefixOf "http://".toList (toLower (stripFileScheme location))
  have e8 := substr_beq_isPrefixOf "https://".toList (toLower (stripFileScheme location))
  have l7 : "http://".toList.length = 7 := rfl
  have l8 : "https://".toList.length = 8 := rfl
  rw [l7] at e7
  rw [l8] at e8
  unfold URI.set
  simp only [hstrip, e7, e8, splitReferrer_eq]
  congr 1
  simp only [URI.mk.injEq, true_and, and_true]
  unfold resolveAmended resolveBy hasHttpScheme
  simp only []
  generalize fs.weakly_canonical _ = W
  generalize (schemeSplit context.referrer).1 = P
  generalize "http://".toList.isPrefixOf (toLower (stripFileScheme location)) = H7
  generalize "https://".toList.isPrefixOf (toLower (stripFileScheme location)) = H8
  generalize fs.is_absolute (stripFileScheme location) = A
  generalize stripFileScheme location = b
  generalize context.referrer = ref
  cases A <;> cases H7 <;> cases H8 <;> cases ref <;> cases P <;> simp

theorem findRotation_idem (u : URI) : u.findRotation.findRotation = u.findRotation := by
  by_cases hrem : u.isRemote = true
  · cases h0 : find_first_of u.fullURI '[' 0 with
    | none =>
      have e : u.findRotation = u := by simp [URI.findRotation, hrem, h0]
      rw [e, e]
    | some i0 =>
      cases h1 : find_first_of u.fullURI ']' i0 with
      | none =>
        have e : u.findRotation = u := by simp [URI.findRotation, hrem, h0, h1]
        rw [e, e]
      | some i1 =>
        have e : u.findRotation = { u with r0 := some i0, r1 := some i1 } := by
          simp [URI.findRotation, hrem, h0, h1]
        rw [e]
        have hrem2 : URI.isRemote { u with r0 := some i0, r1 := some i1 } = true := hrem
        simp [URI.findRotation, hrem2, h0, h1]
  · have e : u.findRotation = u := by simp [URI.findRotation, hrem]
    rw [e, e]

/-! ## C9: the resolved string computed by `URI::set` -/

/-- C10, refuted as stated. For the base `file://file://x` the first
resolution stores the base `file://x`; resolving again from the stored base
strips the second prefix and yields the base and resolved string `x`. -/
theorem set_twice_counterexample :
    (URI.ofLocationContext emptyDisk "file://file://x".toList ⟨[], []⟩).base
      = "file://x".toList ∧
    (URI.ofLocationContext emptyDisk "file://file://x".toList ⟨[], []⟩).full
      = "file://x".toList ∧
    (URI.set emptyDisk (URI.ofLocationContext emptyDisk "file://file://x".toList ⟨[], []⟩)
        (URI.ofLocationContext emptyDisk "file://file://x".toList ⟨[], []⟩).base
        (URI.ofLocationContext emptyDisk "file://file://x".toList ⟨[], []⟩).context).base
      = "x".toList ∧
    (URI.set emptyDisk (URI.ofLocationContext emptyDisk "file://file://x".toList ⟨[], []⟩)
        (URI.ofLocationContext emptyDisk "file://file://x".toList ⟨[], []⟩).base
        (URI.ofLocationContext emptyDisk "file://file://x".toList ⟨[], []⟩).context).full
      = "x".toList ∧
    (URI.setReferrer emptyDisk
        (URI.ofLocationContext emptyDisk "file://file://x".toList ⟨[], []⟩) []).full
      = "x".toList := by
  refine ⟨by rfl, by rfl, by rfl, by rfl, by rfl⟩

/-- C10, amended. When the base, after the removal of one leading `file://`,
does not begin with `file://` again (in any letter case), resolving a
reference again from its stored base and context, as `setReferrer` does when
given the referrer the reference already has, leaves the reference as it is:
same base, same resolved string, same rotation indices. -/
theorem set_twice_amended (fs : StdFilesystem) (u0 : URI) (base : Str) (context : URIContext)
    (hbase : startsWith (stripFileScheme base) "file://".toList false = false) :
    (URI.set fs (URI.set fs u0 base context) (URI.set fs u0 base context).base
        (URI.set fs u0 base context).context).base = (URI.set fs u0 base context).base ∧
    (URI.set fs (URI.set fs u0 base context) (URI.set fs u0 base context).base
        (URI.set fs u0 base context).context).full = (URI.set fs u0 base context).full ∧
    URI.set fs (URI.set fs u0 base context) (URI.set fs u0 base context).base
        (URI.set fs u0 base context).context = URI.set fs u0 base context ∧
    URI.setReferrer fs (URI.set fs u0 base context) (URI.set fs u0 base context).context.referrer
      = URI.set fs u0 base context := by
  have hfix : ∀ b : Str, startsWith b "file://".toList false = false → stripFileScheme b = b := by
    intro b hb
    unfold startsWith at hb
    have : toLower "file://".toList = "file://".toList := by decide
    simp only [this, Bool.false_eq_true, if_false] at hb
    unfold stripFileScheme
    simp only [hb, Bool.false_eq_true, if_false]
  have hstrip : stripFileScheme (stripFileScheme base) = stripFileScheme base :=
    hfix _ hbase
  have hres : resolveAmended fs (stripFileScheme base) context = resolveAmended fs base context := by
    unfold resolveAmended resolveBy
    simp only [hstrip]
  have key : ∀ U : URI, U = URI.set fs u0 base context →
      URI.set fs U U.base U.context = U := by
    intro U hU
    have hV := set_eq fs u0 base context
    rw [← hU] at hV
    obtain ⟨hf, hb, hc⟩ := findRotation_fields
      ⟨stripFileScheme base, resolveAmended fs base context, u0.r0, u0.r1, context⟩
    rw [← hV] at hf hb hc
    simp only [] at hf hb hc
    have hb3 : U.base = stripFileScheme base := hb
    rw [hb3, hc, set_eq fs U (stripFileScheme base) context, hstrip, hres]
    have eta : (⟨stripFileScheme base, resolveAmended fs base context, U.r0, U.r1, context⟩ : URI)
        = U := by
      cases U
      simp only [] at hf hb hc
      subst hf hb hc
      rfl
    rw [eta, hV]
    exact findRotation_idem _
  have k := key _ rfl
  refine ⟨by rw [k], by rw [k], k, ?_⟩
  exact k

/-- Witness of C10 (amended): a relative base resolved against a remote
referrer, and resolved again. -/
theorem set_twice_amended_witness :
    URI.setReferrer emptyDisk
        (URI.set emptyDisk URI.empty "../img/a.png".toList
          ⟨"http://host/dir/sub/file.json".toList, []⟩)
        "http://host/dir/sub/file.json".toList
      = URI.set emptyDisk URI.empty "../img/a.png".toList
          ⟨"http://host/dir/sub/file.json".toList, []⟩ :=
  (set_twice_amended emptyDisk URI.empty "../img/a.png".toList
    ⟨"http://host/dir/sub/file.json".toList, []⟩ (by rfl)).2.2.2


/-! ## C11: expiry of a cache entry -/

/-- C11. `isExpired(lastModified)` holds exactly when `lastModified` is below
the minimum accept time, which is `minTime` if set, else `now - maxAge` if
`maxAge` is set, else 0; a set `minTime` makes `maxAge` irrelevant. With
`maxAge = 60` and now `T`, an entry at `T - 61` is expired and one at `T - 59`
is not; with `minTime = T - 30` and `maxAge = 60`, an entry at `T - 40` is
expired. -/
theorem isExpired_spec (p : CachePolicy) (now : DateTime) (lastModified T : TimeStamp) :
    (p.getMinAcceptTime now).asTimeStamp
      = minAcceptTimeSpec (p.minTime.toOption.map DateTime.asTimeStamp)
          (p.maxAge.toOption.map Duration.seconds) now.asTimeStamp ∧
    (p.isExpired now lastModified = true ↔
      lastModified < minAcceptTimeSpec (p.minTime.toOption.map DateTime.asTimeStamp)
          (p.maxAge.toOption.map Duration.seconds) now.asTimeStamp) ∧
    (∀ (t : DateTime) (a b : optional Duration) (u : optional Usage),
      CachePolicy.isExpired ⟨u, a, ⟨true, t⟩⟩ now lastModified
        = CachePolicy.isExpired ⟨u, b, ⟨true, t⟩⟩ now lastModified ∧
      (CachePolicy.isExpired ⟨u, a, ⟨true, t⟩⟩ now lastModified = true ↔
        lastModified < t.asTimeStamp)) ∧
    (∀ (u : optional Usage) (unset : DateTime),
      CachePolicy.isExpired ⟨u, ⟨true, ⟨60⟩⟩, ⟨false, unset⟩⟩ ⟨T⟩ (T - 61) = true ∧
      CachePolicy.isExpired ⟨u, ⟨true, ⟨60⟩⟩, ⟨false, unset⟩⟩ ⟨T⟩ (T - 59) = false ∧
      CachePolicy.isExpired ⟨u, ⟨true, ⟨60⟩⟩, ⟨true, ⟨T - 30⟩⟩⟩ ⟨T⟩ (T - 40) = true) := by
  have hm : (p.getMinAcceptTime now).asTimeStamp
      = minAcceptTimeSpec (p.minTime.toOption.map DateTime.asTimeStamp)
          (p.maxAge.toOption.map Duration.seconds) now.asTimeStamp := by
    unfold CachePolicy.getMinAcceptTime minAcceptTimeSpec optional.toOption
    cases h1 : p.minTime.has_value <;> cases h2 : p.maxAge.has_value <;> simp
  refine ⟨hm, ?_, ?_, ?_⟩
  · unfold CachePolicy.isExpired
    rw [hm]
    simp
  · intro t a b u
    simp [CachePolicy.isExpired, CachePolicy.getMinAcceptTime]
  · intro u unset
    simp [CachePolicy.isExpired, CachePolicy.getMinAcceptTime]

/-! ## C12: merging policies -/

/-- C12. After `mergeAndOverride`, each of `usage`, `minTime`, `maxAge` is set
to the override's value if the override has that field set, and is the base
policy's field, value and flag, otherwise; an override with no field set and
an absent optional override leave the policy as it is. `{usage: no-cache}`
merged onto `{usage: read-write, maxAge: 60}` gives
`{usage: no-cache, maxAge: 60}`. -/
theorem mergeAndOverride_spec (base rhs : CachePolicy) (absent : CachePolicy) :
    (base.mergeAndOverride rhs).usage
      = (if rhs.usage.has_value then ⟨true, rhs.usage.value⟩ else base.usage) ∧
    (base.mergeAndOverride rhs).minTime
      = (if rhs.minTime.has_value then ⟨true, rhs.minTime.value⟩ else base.minTime) ∧
    (base.mergeAndOverride rhs).maxAge
      = (if rhs.maxAge.has_value then ⟨true, rhs.maxAge.value⟩ else base.maxAge) ∧
    ((rhs.usage.has_value = false ∧ rhs.minTime.has_value = false ∧
        rhs.maxAge.has_value = false) → base.mergeAndOverride rhs = base) ∧
    base.mergeAndOverrideOptional ⟨false, absent⟩ = base ∧
    base.mergeAndOverrideOptional ⟨true, rhs⟩ = base.mergeAndOverride rhs ∧
    readWrite60.mergeAndOverride noCacheOverride
      = ⟨⟨true, .NO_CACHE⟩, ⟨true, ⟨60⟩⟩, ⟨false, ⟨0⟩⟩⟩ := by
  refine ⟨rfl, rfl, rfl, ?_, rfl, rfl, by decide⟩
  rintro ⟨h1, h2, h3⟩
  simp [CachePolicy.mergeAndOverride, h1, h2, h3]

/-- Witness of C12: an override with no field set, merged onto the example
policy. -/
theorem mergeAndOverride_spec_witness :
    readWrite60.mergeAndOverride ⟨⟨false, .NO_CACHE⟩, ⟨false, ⟨5⟩⟩, ⟨false, ⟨7⟩⟩⟩ = readWrite60 :=
  (mergeAndOverride_spec readWrite60 ⟨⟨false, .NO_CACHE⟩, ⟨false, ⟨5⟩⟩, ⟨false, ⟨7⟩⟩⟩
    readWrite60).2.2.2.1 ⟨rfl, rfl, rfl⟩

/-! ## C13: merging is associative -/

/-- C13. Merging `B` onto `A` and then `C` onto the result gives the same
policy, flags and values, as merging onto `A` the result of merging `C` onto
`B`. -/
theorem mergeAndOverride_assoc (A B C : CachePolicy) :
    (A.mergeAndOverride B).mergeAndOverride C = A.mergeAndOverride (B.mergeAndOverride C) := by
  unfold CachePolicy.mergeAndOverride optional.assign
  cases hu : C.usage.has_value <;> cases hm : C.minTime.has_value <;>
    cases ha : C.maxAge.has_value <;> simp


/-! ## C14: the serialization round trip -/

/-- C14, evaluated at the failing input. A reference with one header
serializes to an object with `href` and a `headers` array of one pair, and
`from_json` of that object ends in the `invalid_iterator` exception of
`i.key()` instead of a reference. -/
theorem from_json_headers_throw :
    to_json (URI.ofLocationContext emptyDisk "http://example.com/a.png".toList tokenContext)
      = .object [("href".toList, .string "http://example.com/a.png".toList),
          ("headers".toList,
            .array [.array [.string "Authorization".toList, .string "token".toList]])] ∧
    from_json emptyDisk
        (.object [("href".toList, .string "http://example.com/a.png".toList),
          ("headers".toList,
            .array [.array [.string "Authorization".toList, .string "token".toList]])])
      = .error .invalid_iterator := by
  refine ⟨by rfl, by rfl⟩

/-! ## C15: the serialized form of a reference -/

theorem foldl_push_back (headers : List (Str × Str)) (acc : List Json) :
    headers.foldl (fun acc h => acc.push_back (.array [.string h.1, .string h.2]))
        (Json.array acc)
      = .array (acc ++ headerPairs headers) := by
  induction headers generalizing acc with
  | nil => simp [headerPairs]
  | cons h t ih =>
    have step : (Json.array acc).push_back (.array [.string h.1, .string h.2])
        = .array (acc ++ [.array [.string h.1, .string h.2]]) := rfl
    rw [List.foldl_cons, step, ih]
    simp [headerPairs]

theorem to_json_eq (obj : URI) :
    to_json obj
      = (if obj.context.referrer = [] ∧ obj.context.headers = [] then .string obj.base
         else .object (("href".toList, .string obj.base) ::
           (if obj.context.headers = [] then []
            else [("headers".toList, .array (headerPairs obj.context.headers))]))) := by
  unfold to_json
  rw [foldl_push_back]
  cases hr : obj.context.referrer <;> cases hh : obj.context.headers <;>
    simp [Json.set, Json.is_object, Json.assign, assignMember]

/-- C15. A reference with neither referrer nor headers serializes to the JSON
string of its base; any other reference serializes to an object with the
member `href`, the base, and with the member `headers` exactly when the
header list is not empty, an array of one `[name, value]` pair for each
header, and with no other member, `referrer` in particular. The reference from
`http://example.com/a.png` serializes to that string; one with a referrer and
two headers to an object with `href` and the two pairs. -/
theorem to_json_form (obj : URI) :
    to_json obj
      = (if obj.context.referrer = [] ∧ obj.context.headers = [] then .string obj.base
         else .object (("href".toList, .string obj.base) ::
           (if obj.context.headers = [] then []
            else [("headers".toList, .array (headerPairs obj.context.headers))]))) ∧
    (to_json obj).find "referrer".toList = none ∧
    (headerPairs obj.context.headers).length = obj.context.headers.length ∧
    to_json (URI.ofLocation "http://example.com/a.png".toList)
      = .string "http://example.com/a.png".toList ∧
    to_json (URI.ofLocationContext emptyDisk "http://example.com/a.png".toList twoHeaderContext)
      = .object [("href".toList, .string "http://example.com/a.png".toList),
          ("headers".toList,
            .array [.array [.string "Accept".toList, .string "image/png".toList],
              .array [.string "Authorization".toList, .string "token".toList]])] := by
  have hform := to_json_eq obj
  refine ⟨hform, ?_, by simp [headerPairs], by rfl, by rfl⟩
  rw [hform]
  cases hr : obj.context.referrer <;> cases hh : obj.context.headers <;>
    simp [Json.find, findMember]


/-! ## The round trip in general -/

/-- For every reference with a non-empty header list, `from_json` of its
serialized form throws; without headers it returns a reference with the
serialized base (after the removal of a `file://` prefix when the form is an
object) and no headers. -/
theorem from_json_to_json (fs : StdFilesystem) (u : URI) :
    (u.context.headers ≠ [] → from_json fs (to_json u) = .error .invalid_iterator) ∧
    (u.context.headers = [] → u.context.referrer = [] →
      from_json fs (to_json u) = .ok (URI.ofLocation u.base)) ∧
    (u.context.headers = [] → u.context.referrer ≠ [] →
      from_json fs (to_json u) = .ok (URI.ofLocationContext fs u.base ⟨[], []⟩)) := by
  have hform := to_json_eq u
  have k1 : ("href".toList = "referrer".toList) = False := by decide
  have k2 : ("href".toList = "headers".toList) = False := by decide
  have k3 : ("headers".toList = "referrer".toList) = False := by decide
  refine ⟨?_, ?_, ?_⟩
  · intro hh
    rw [hform]
    cases hs : u.context.headers with
    | nil => exact absurd hs hh
    | cons h t =>
      simp [from_json, Json.get_to, Json.find, findMember, k1, k2, k3, headerPairs,
        fromJsonHeaders]
  · intro hh hr
    rw [hform]
    simp [hh, hr, from_json]
  · intro hh hr
    rw [hform]
    simp [hh, hr, from_json, Json.get_to, Json.find, findMember, k1, k2, k3]

/-! ## C16: content-type resolution -/

/-- What the content-type resolution of `URI::read` computes: the value of
the exactly named `Content-Type` header when it is there and not empty, else
the text after the last `.` of the whole URL up to its first `?`. -/
theorem resolveContentType_order (actual_url : Str) (response : HTTPResponse) :
    (∀ ct, headerFind response.headers "Content-Type".toList = some ct → ct ≠ [] →
      resolveContentType actual_url response = ct) ∧
    ((headerFind response.headers "Content-Type".toList).getD [] = [] →
      resolveContentType actual_url response
        = inferContentTypeFromFileExtension
            (match find_first_of actual_url '?' 0 with
             | some p => substr actual_url 0 p
             | none => actual_url)) := by
  constructor
  · intro ct hct hne
    unfold resolveContentType
    simp only [hct, Option.getD_some]
    cases ct with
    | nil => exact absurd rfl hne
    | cons c cs => rfl
  · intro h
    unfold resolveContentType
    simp only [h, List.isEmpty_nil, if_true]
    split
    · rename_i he
      simp only [inferContentTypeFromData]
      cases hx : inferContentTypeFromFileExtension
          (match find_first_of actual_url '?' 0 with
           | some p => substr actual_url 0 p
           | none => actual_url) with
      | nil => rfl
      | cons c cs => rw [hx] at he; simp at he
    · rfl

/-- C16, evaluated at the failing input. The URL `http://example.com/tiles`
has the path `/tiles`, without a `.`, and the response has no `Content-Type`
header; the content type of the result is `com/tiles`, the text after the
last `.` of the host name. A header named `content-type` in lower case is not
found either. -/
theorem read_content_type_from_host :
    split_url "http://example.com/tiles".toList
      = some ("http://example.com".toList, "/tiles".toList, []) ∧
    inferContentTypeFromFileExtension "/tiles".toList = [] ∧
    inferContentTypeFromData "data".toList = [] ∧
    (URI.read emptyDisk okNet (URI.ofLocation "http://example.com/tiles".toList)
        (plainOptions 1) 0).toOption.map (fun o => (o.result.status, o.result.value))
      = some (StatusOK, ⟨"com/tiles".toList, "data".toList⟩) ∧
    (URI.read emptyDisk lowerCaseNet (URI.ofLocation "http://example.com/a.jpg".toList)
        (plainOptions 1) 0).toOption.map (fun o => (o.result.status, o.result.value))
      = some (StatusOK, ⟨"jpg".toList, "data".toList⟩) := by
  refine ⟨by rfl, by rfl, by rfl, by rfl, by rfl⟩

/-! ## C17: the headers of the request -/

/-- Every request of a `URI::read` carries the default `User-Agent` header
and nothing else, whatever the header list of the context. -/
theorem read_request_headers (fs : StdFilesystem) (net : Net) (u : URI) (io : IOOptions)
    (rotator : Int) (out : ReadOut) (hread : URI.read fs net u io rotator = .ok out) :
    ∀ w ∈ requestsOf out.trace,
      w.headers = [("User-Agent".toList, "rocky/".toList ++ net.version)] := by
  have hnone : ∀ (o : ReadOut), requestsOf o.trace = [] →
      ∀ w ∈ requestsOf (ReadOut.after (cacheProbe io u.full) o).trace,
        w.headers = [("User-Agent".toList, "rocky/".toList ++ net.version)] := by
    intro o ho w hw
    have : requestsOf (ReadOut.after (cacheProbe io u.full) o).trace = [] := by
      simp only [ReadOut.after, requestsOf_append, ho, cacheProbe]
      cases io.contentCache <;> rfl
    rw [this] at hw
    cases hw
  by_cases hhit : ∃ cache cached, io.contentCache = some cache ∧ cache.get u.full = some cached
  · obtain ⟨cache, cached, hc, hg⟩ := hhit
    have h := hread
    unfold URI.read at h
    simp only [hc, hg, Except.ok.injEq] at h
    subst h
    intro w hw
    cases hw
  · have hmiss : ∀ cache, io.contentCache = some cache → cache.get u.full = none := by
      intro cache hc
      cases hg : cache.get u.full with
      | none => rfl
      | some cached => exact absurd ⟨cache, cached, hc, hg⟩ hhit
    have h := hread
    rw [read_miss fs net u io rotator hmiss] at h
    by_cases hfile : fs.file_exists u.full = some true
    · simp only [readUncached, hfile, if_true, Except.map, Except.ok.injEq] at h
      subst h
      apply hnone
      simp only [cacheStore]
      cases io.contentCache <;> rfl
    · have hfile2 : fs.file_exists u.full = some false := by
        cases hx : fs.file_exists u.full with
        | none => simp [readUncached, hx, Except.map] at h
        | some found =>
          cases found with
          | true => exact absurd hx hfile
          | false => rfl
      by_cases hrem : containsServerAddress u.full = true
      · simp only [readUncached, hfile2, hrem, Bool.false_eq_true, if_false, if_true] at h
        cases hrot : resolveRotation u rotator with
        | error f => rw [hrot] at h; cases h
        | ok p =>
          rw [hrot] at h
          obtain ⟨actual_url, rotator1⟩ := p
          simp only [Except.map, Except.ok.injEq] at h
          subst h
          intro w hw
          rw [(readRemote_requests u io actual_url rotator1 _).2] at hw
          obtain ⟨_, _, h3⟩ := (http_get_trace net ⟨actual_url, [], []⟩ io).1 w hw
          rw [h3]
          rfl
      · have hrem2 : containsServerAddress u.full = false := by simpa using hrem
        simp only [readUncached, hfile2, hrem2, Bool.false_eq_true, if_false, Except.map,
          Except.ok.injEq] at h
        subst h
        apply hnone
        rfl

/-- C17, evaluated at the failing input. A read of a remote reference whose
context lists the header `Authorization: token` issues one request, and its
only header is the default `User-Agent`. -/
theorem read_drops_context_headers :
    (URI.ofLocationContext emptyDisk "http://example.com/a.png".toList tokenContext).context.headers
      = [("Authorization".toList, "token".toList)] ∧
    (URI.read emptyDisk okNet
        (URI.ofLocationContext emptyDisk "http://example.com/a.png".toList tokenContext)
        (plainOptions 1) 0).toOption.map
      (fun o => (requestsOf o.trace).map (fun w => (w.url, w.headers)))
      = some [("http://example.com/a.png".toList,
          [("User-Agent".toList, "rocky/0.0.0".toList)])] := by
  refine ⟨by rfl, by rfl⟩


/-! ## C20: the rotation marker as an invariant of the state -/

/-- The scan of `findRotation` on a state without a marker establishes the
invariant. -/
theorem findRotation_invariant (u : URI) (h0 : u.r0 = none) :
    u.findRotation.rotationInvariant = true := by
  have hu : u.rotationInvariant = true := by simp [URI.rotationInvariant, h0]
  by_cases hrem : u.isRemote = true
  · cases hi0 : find_first_of u.fullURI '[' 0 with
    | none =>
      have e : u.findRotation = u := by simp [URI.findRotation, hrem, hi0]
      rw [e]; exact hu
    | some i0 =>
      cases hi1 : find_first_of u.fullURI ']' i0 with
      | none =>
        have e : u.findRotation = u := by simp [URI.findRotation, hrem, hi0, hi1]
        rw [e]; exact hu
      | some i1 =>
        have e : u.findRotation = { u with r0 := some i0, r1 := some i1 } := by
          simp [URI.findRotation, hrem, hi0, hi1]
        rw [e]
        have hrem2 : URI.isRemote { u with r0 := some i0, r1 := some i1 } = true := hrem
        simp [URI.rotationInvariant, hrem2, hi0, hi1]
  · have e : u.findRotation = u := by simp [URI.findRotation, hrem]
    rw [e]; exact hu

/-- Every state that a constructor yields satisfies the invariant. -/
theorem constructors_invariant (fs : StdFilesystem) (location : Str) (context : URIContext) :
    URI.empty.rotationInvariant = true ∧
    (URI.ofLocation location).rotationInvariant = true ∧
    (URI.ofLocationContext fs location context).rotationInvariant = true := by
  refine ⟨rfl, findRotation_invariant _ rfl, ?_⟩
  unfold URI.ofLocationContext
  rw [set_eq]
  exact findRotation_invariant _ rfl

/-- C20, evaluated at the failing inputs. `setReferrer` with a local referrer
on a reference that had resolved to a remote string with brackets leaves both
indices set on a local path; `set` to a local path does the same; and `set`
to another remote string leaves indices that are not the positions of
brackets in it. All three states are reachable. -/
theorem stale_rotation_marker :
    URI.Reachable emptyDisk
      (URI.setReferrer emptyDisk
        (URI.ofLocationContext emptyDisk "x[1].png".toList ⟨"http://host/dir/f.json".toList, []⟩)
        "/local/dir/f.json".toList) ∧
    URI.setReferrer emptyDisk
        (URI.ofLocationContext emptyDisk "x[1].png".toList ⟨"http://host/dir/f.json".toList, []⟩)
        "/local/dir/f.json".toList
      = ⟨"x[1].png".toList, "/local/dir/x[1].png".toList, some 17, some 19,
          ⟨"/local/dir/f.json".toList, []⟩⟩ ∧
    containsServerAddress "/local/dir/x[1].png".toList = false ∧
    URI.set emptyDisk (URI.ofLocation "http://[ab].example.com/x".toList) "/data/a.tif".toList
        ⟨[], []⟩
      = ⟨"/data/a.tif".toList, "/data/a.tif".toList, some 7, some 10, ⟨[], []⟩⟩ ∧
    containsServerAddress "/data/a.tif".toList = false ∧
    URI.set emptyDisk (URI.ofLocation "http://[ab].example.com/x".toList)
        "http://host/longer/path".toList ⟨[], []⟩
      = ⟨"http://host/longer/path".toList, "http://host/longer/path".toList, some 7, some 10,
          ⟨[], []⟩⟩ ∧
    find_first_of "http://host/longer/path".toList '[' 0 = none ∧
    (URI.setReferrer emptyDisk
        (URI.ofLocationContext emptyDisk "x[1].png".toList ⟨"http://host/dir/f.json".toList, []⟩)
        "/local/dir/f.json".toList).rotationInvariant = false := by
  refine ⟨?_, by rfl, by decide, by rfl, by decide, by rfl, by rfl, by rfl⟩
  exact URI.Reachable.setReferrer _ _ (URI.Reachable.ofLocationContext _ _)


/-! ## The retry index of the back-off sleeps -/

theorem backoffIndices_append (a b : List Event) :
    backoffIndices (a ++ b) = backoffIndices a ++ backoffIndices b := by
  induction a with
  | nil => rfl
  | cons e t ih => cases e <;> simp [backoffIndices, ih]

/-- The back-off sleeps of one `http_get` carry retry indices that start at
the current count and grow from one sleep to the next; when cancellation is
never signalled and every attempt is answered with 429, they are
`0, 1, ..., n - 2` for `n` attempts. -/
theorem http_get_loop_backoff (net : Net) (io : IOOptions) (w : Wire) (r polls sent tm : Nat) :
    (∀ k ∈ backoffIndices (http_get_loop net io w r polls sent tm).trace, tm ≤ k) ∧
    (backoffIndices (http_get_loop net io w r polls sent tm).trace).Pairwise (fun a b => a < b) ∧
    ((∀ i, io.canceled i = false) →
      (∀ i, ∃ headers body, net.get w i = .response 429 headers body) →
      backoffIndices (http_get_loop net io w r polls sent tm).trace
        = (List.range r).map (fun i => tm + i)) := by
  induction r generalizing polls sent tm with
  | zero =>
    rw [http_get_loop_zero]
    refine ⟨?_, ?_, ?_⟩
    · split
      · simp [backoffIndices]
      · split <;> (repeat' split) <;> simp [backoffIndices]
    · split
      · simp [backoffIndices]
      · split <;> (repeat' split) <;> simp [backoffIndices]
    · intro hc hg
      obtain ⟨headers, body, hgs⟩ := hg sent
      simp [hc, hgs, backoffIndices]
  | succ r ih =>
    rw [http_get_loop_succ]
    obtain ⟨a1, a2, a3⟩ := ih (polls + 2) (sent + 1) (tm + 1)
    obtain ⟨b1, b2, _⟩ := ih (polls + 1) (sent + 1) tm
    refine ⟨?_, ?_, ?_⟩
    · split
      · simp [backoffIndices]
      · split
        · split
          · simp [backoffIndices]
          · split
            · simp only [HttpOut.after, backoffIndices_append]
              intro k hk
              rw [List.mem_append] at hk
              rcases hk with hk | hk
              · split at hk <;> simp [backoffIndices] at hk
                omega
              · have := a1 k hk
                omega
            · split <;> simp [backoffIndices]
        · split
          · simp only [HttpOut.after, backoffIndices_append]
            intro k hk
            rw [List.mem_append] at hk
            rcases hk with hk | hk
            · simp [backoffIndices] at hk
            · exact b1 k hk
          · simp [backoffIndices]
        · simp [backoffIndices]
    · split
      · simp [backoffIndices]
      · split
        · split
          · simp [backoffIndices]
          · split
            · simp only [HttpOut.after, backoffIndices_append]
              split
              · simpa [backoffIndices] using a2
              · simp only [backoffIndices, List.singleton_append, List.pairwise_cons]
                refine ⟨?_, a2⟩
                intro k hk
                have := a1 k hk
                omega
            · split <;> simp [backoffIndices]
        · split
          · simp only [HttpOut.after, backoffIndices_append]
            simpa [backoffIndices] using b2
          · simp [backoffIndices]
        · simp [backoffIndices]
    · intro hc hg
      obtain ⟨headers, body, hgs⟩ := hg sent
      simp only [hc, hgs, Bool.false_eq_true, if_false, if_true,
        show ¬ ((429 : Int) = 404) by decide, HttpOut.after, backoffIndices_append]
      rw [a3 hc hg]
      simp only [backoffIndices, List.singleton_append, List.range_succ_eq_map, List.map_cons,
        List.map_map, Nat.add_zero]
      congr 1
      apply List.map_congr_left
      intro i _
      simp only [Function.comp]
      omega


/-! ## Lemmas on `split_url` -/

theorem findFrom_eq_none (p : Char → Bool) (s : Str) (i : Nat) (h : findFrom p s i = none) :
    ∀ c ∈ s, p c = false := by
  induction s generalizing i with
  | nil => intro c hc; cases hc
  | cons a as ih =>
    by_cases ha : p a = true
    · simp [findFrom, ha] at h
    · have ha2 : p a = false := by simpa using ha
      simp only [findFrom, ha2, Bool.false_eq_true, if_false] at h
      intro c hc
      rcases List.mem_cons.mp hc with rfl | hc
      · exact ha2
      · exact ih (i + 1) h c hc

/-- `split_url` fails exactly on strings with neither `:` nor `/`. -/
theorem split_url_none (url : Str) :
    split_url url = none ↔ ∀ c ∈ url, c ≠ ':' ∧ c ≠ '/' := by
  constructor
  · intro h
    have hf : find_first_of_any url "://".toList = none := by
      unfold split_url at h
      cases hq : find_first_of_any url "://".toList with
      | none => rfl
      | some pos0 =>
        rw [hq] at h
        simp only [] at h
        split at h
        · cases h
        · split at h <;> cases h
    intro c hc
    have := findFrom_eq_none _ url 0 hf c hc
    simpa using this
  · intro h
    have hf : find_first_of_any url "://".toList = none := by
      apply findFrom_none
      intro c hc
      have := h c hc
      simp [this.1, this.2]
    unfold split_url
    rw [hf]

theorem containsSubstring_head (h : Char) (t s : Str)
    (hc : containsSubstring (h :: t) s = true) : h ∈ s := by
  induction s with
  | nil => simp [containsSubstring, List.isPrefixOf] at hc
  | cons c cs ih =>
    simp only [containsSubstring, List.isPrefixOf, Bool.or_eq_true, Bool.and_eq_true,
      beq_iff_eq] at hc
    rcases hc with ⟨rfl, _⟩ | hc
    · exact List.mem_cons_self _ _
    · exact List.mem_cons_of_mem _ (ih hc)

/-- A URL with the scheme separator passes `split_url`. -/
theorem split_url_of_separator (url : Str) (h : containsSubstring "://".toList url = true) :
    split_url url ≠ none := by
  intro hn
  have hmem := containsSubstring_head ':' "//".toList url h
  exact ((split_url_none url).mp hn ':' hmem).1 rfl

/-- When `split_url` fails, `http_get` returns `ConfigurationError` and makes
no request. -/
theorem http_get_split_fails (net : Net) (request : HTTPRequest) (io : IOOptions)
    (h : split_url request.url = none) :
    (http_get net request io).result = IOResult.ofStatus ⟨.ConfigurationError, []⟩ ∧
    (http_get net request io).trace = [] := by
  simp [http_get, h]

theorem find_scheme_end (scheme rest : Str) (hs : ∀ c ∈ scheme, c ≠ ':' ∧ c ≠ '/') :
    find_first_of_any (scheme ++ ':' :: rest) "://".toList = some scheme.length := by
  unfold find_first_of_any
  rw [findFrom_append _ scheme ':' rest 0 _ (by decide)]
  · simp
  · intro c hc
    have := hs c hc
    simp [this.1, this.2]

theorem drop_urlOf (scheme authority rest : Str) :
    (urlOf scheme authority rest).drop (scheme.length + 3) = authority ++ rest := by
  unfold urlOf
  rw [show scheme ++ ':' :: '/' :: '/' :: (authority ++ rest)
      = (scheme ++ [':', '/', '/']) ++ (authority ++ rest) by simp]
  rw [show scheme.length + 3 = (scheme ++ [':', '/', '/']).length by simp]
  exact List.drop_left _ _

theorem take_urlOf (scheme authority rest : Str) :
    (urlOf scheme authority rest).take (scheme.length + 3 + authority.length)
      = urlOf scheme authority [] := by
  unfold urlOf
  rw [show scheme ++ ':' :: '/' :: '/' :: (authority ++ rest)
      = (scheme ++ ':' :: '/' :: '/' :: authority) ++ rest by simp]
  rw [show scheme.length + 3 + authority.length
      = (scheme ++ ':' :: '/' :: '/' :: authority).length by simp; omega]
  rw [List.take_left]
  simp

theorem drop_urlOf_rest (scheme authority rest : Str) :
    (urlOf scheme authority rest).drop (scheme.length + 3 + authority.length) = rest := by
  unfold urlOf
  rw [show scheme ++ ':' :: '/' :: '/' :: (authority ++ rest)
      = (scheme ++ ':' :: '/' :: '/' :: authority) ++ rest by simp]
  rw [show scheme.length + 3 + authority.length
      = (scheme ++ ':' :: '/' :: '/' :: authority).length by simp; omega]
  exact List.drop_left _ _


theorem find_slash_urlOf (scheme authority rest : Str) :
    find_first_of (urlOf scheme authority rest) '/' (scheme.length + 3)
      = findFrom (fun x => x == '/') (authority ++ rest) (scheme.length + 3) := by
  unfold find_first_of
  rw [drop_urlOf]

theorem find_query_urlOf (scheme authority rest : Str) :
    find_first_of (urlOf scheme authority rest) '?' (scheme.length + 3 + authority.length)
      = findFrom (fun x => x == '?') rest (scheme.length + 3 + authority.length) := by
  unfold find_first_of
  rw [drop_urlOf_rest]

/-- What `split_url` returns on URLs of the form `scheme://authority`,
`scheme://authority/path` and `scheme://authority/path?query`. -/
theorem split_url_wellformed (scheme authority path query : Str)
    (hs : ∀ c ∈ scheme, c ≠ ':' ∧ c ≠ '/') (ha : ∀ c ∈ authority, c ≠ '/')
    (hp : ∀ c ∈ path, c ≠ '?') :
    split_url (urlOf scheme authority []) = some (urlOf scheme authority [], [], []) ∧
    split_url (urlOf scheme authority ('/' :: path))
      = some (urlOf scheme authority [], '/' :: path, []) ∧
    split_url (urlOf scheme authority ('/' :: (path ++ '?' :: query)))
      = some (urlOf scheme authority [], '/' :: path, query) := by
  have hany : ∀ rest, find_first_of_any (urlOf scheme authority rest) "://".toList
      = some scheme.length := fun rest => find_scheme_end scheme _ hs
  have hslash : ∀ r, findFrom (fun x => x == '/') (authority ++ '/' :: r) (scheme.length + 3)
      = some (scheme.length + 3 + authority.length) := by
    intro r
    exact findFrom_append _ authority '/' r _ (by intro c hc; simpa using ha c hc) (by simp)
  refine ⟨?_, ?_, ?_⟩
  · unfold split_url
    rw [hany]
    simp only []
    rw [find_slash_urlOf]
    simp only [List.append_nil]
    rw [findFrom_none _ authority _ (by intro c hc; simpa using ha c hc)]
  · unfold split_url
    rw [hany]
    simp only []
    rw [find_slash_urlOf, hslash]
    simp only []
    rw [find_query_urlOf]
    rw [findFrom_none _ ('/' :: path) _ (by
      intro c hc
      rcases List.mem_cons.mp hc with rfl | hc
      · decide
      · simpa using hp c hc)]
    simp only [substr, substrFrom, List.drop_zero, take_urlOf, drop_urlOf_rest]
  · unfold split_url
    rw [hany]
    simp only []
    rw [find_slash_urlOf, hslash]
    simp only []
    rw [find_query_urlOf]
    have hq : findFrom (fun x => x == '?') ('/' :: (path ++ '?' :: query))
        (scheme.length + 3 + authority.length)
        = some (scheme.length + 3 + authority.length + (path.length + 1)) := by
      have := findFrom_append (fun x => x == '?') ('/' :: path) '?' query
        (scheme.length + 3 + authority.length) (by
          intro c hc
          rcases List.mem_cons.mp hc with rfl | hc
          · decide
          · simpa using hp c hc) (by simp)
      simpa using this
    rw [hq]
    have hlen : scheme.length + 3 + authority.length + (path.length + 1)
        < (urlOf scheme authority ('/' :: (path ++ '?' :: query))).length := by
      simp [urlOf]
      omega
    simp only [substr, substrFrom, List.drop_zero, take_urlOf, drop_urlOf_rest, hlen, if_true]
    have e1 : scheme.length + 3 + authority.length + (path.length + 1)
        - (scheme.length + 3 + authority.length) = ('/' :: path).length := by
      simp
    have e2 : ('/' :: (path ++ '?' :: query)) = ('/' :: path) ++ '?' :: query := by simp
    rw [e1, e2, List.take_left]
    have e3 : (urlOf scheme authority (('/' :: path) ++ '?' :: query)).drop
        (scheme.length + 3 + authority.length + (path.length + 1) + 1) = query := by
      rw [show scheme.length + 3 + authority.length + (path.length + 1) + 1
          = (scheme.length + 3 + authority.length) + (('/' :: path).length + 1) by simp; omega]
      rw [← List.drop_drop, drop_urlOf_rest]
      rw [show ('/' :: path) ++ '?' :: query = (('/' :: path) ++ ['?']) ++ query by simp]
      rw [show ('/' :: path).length + 1 = (('/' :: path) ++ ['?']).length by simp]
      exact List.drop_left _ _
    rw [e3]

/-- On a URL with a query but no path, `split_url` finds no `/` after the
authority and returns the whole URL as `proto_host_port`. -/
theorem split_url_query_without_path (scheme authority query : Str)
    (hs : ∀ c ∈ scheme, c ≠ ':' ∧ c ≠ '/') (ha : ∀ c ∈ authority, c ≠ '/')
    (hq : ∀ c ∈ query, c ≠ '/') :
    split_url (urlOf scheme authority ('?' :: query))
      = some (urlOf scheme authority ('?' :: query), [], []) := by
  have hany : find_first_of_any (urlOf scheme authority ('?' :: query)) "://".toList
      = some scheme.length := find_scheme_end scheme _ hs
  unfold split_url
  rw [hany]
  simp only []
  rw [find_slash_urlOf]
  rw [findFrom_none _ (authority ++ '?' :: query) _ (by
    intro c hc
    rcases List.mem_append.mp hc with hc | hc
    · simpa using ha c hc
    · rcases List.mem_cons.mp hc with rfl | hc
      · decide
      · simpa using hq c hc)]


/-! ## C21: `split_url` and the URL decomposition -/

/-- C21, evaluated at the failing inputs. For `http://example.com?x=1`, a URL
with a query and no path, `split_url` returns the whole URL as
`proto_host_port` with an empty path and an empty query text, and that is what
a read puts on the wire. For `a/b`, which has no `://`, `split_url` succeeds,
and `http_get` issues a request instead of returning `ConfigurationError`. -/
theorem split_url_misses :
    split_url "http://example.com?x=1".toList
      = some ("http://example.com?x=1".toList, [], []) ∧
    (URI.read emptyDisk okNet (URI.ofLocation "http://example.com?x=1".toList)
        (plainOptions 1) 0).toOption.map
      (fun o => (requestsOf o.trace).map (fun w => (w.proto_host_port, w.path, w.query_text)))
      = some [("http://example.com?x=1".toList, [], [])] ∧
    containsSubstring "://".toList "a/b".toList = false ∧
    split_url "a/b".toList = some ("a/b".toList, [], []) ∧
    (http_get okNet ⟨"a/b".toList, [], []⟩ (plainOptions 1)).result.status = StatusOK ∧
    requestCount (http_get okNet ⟨"a/b".toList, [], []⟩ (plainOptions 1)).trace = 1 := by
  refine ⟨by rfl, by rfl, by rfl, by rfl, by rfl, by rfl⟩

/-! ## Lemmas on the dispatch of `URI::read` -/

/-- When `std::filesystem::exists` throws, the exception leaves `URI::read`
after the cache lookup missed. -/
theorem read_exists_throws (fs : StdFilesystem) (net : Net) (u : URI) (io : IOOptions)
    (rotator : Int)
    (hmiss : ∀ cache, io.contentCache = some cache → cache.get u.full = none)
    (hfile : fs.file_exists u.full = none) :
    URI.read fs net u io rotator = .error .filesystemError := by
  rw [read_miss fs net u io rotator hmiss]
  simp only [readUncached, hfile, Except.map]

/-- On a disk whose status queries fail, the read of a remote reference ends
with the exception of `exists` and reaches neither branch. -/
theorem read_unreadable :
    URI.read unreadableDisk okNet (URI.ofLocation "http://host/a.png".toList) (plainOptions 1) 0
      = .error .filesystemError := by
  rfl

/-! ## C8: dispatch order of `URI::read` -/

end Rocky
